import Mathlib

/-!
Shallow embedding of the crafting-cost calculator (src/绿鬣蜥v1.0x.py).

Conventions of the embedding:
* Python floats are modelled as rationals (`ℚ`); the price fields use the
  source's literal sentinel `-1` for "unset".
* Python dicts keyed by item name are modelled either as association lists
  (`List (String × _)`, for the catalog, mirroring membership tests via
  `List.lookup`) or as total functions `String → ℚ` with default `0` (for the
  quantity-accumulating dicts, whose absent-key/read pattern is exactly
  "default 0").
* The unbounded Python recursion of `get_recipe_tree` / `get_base_materials`
  is given an explicit fuel parameter; running out of fuel is reported as
  `RErr.outOfFuel` (resp. `none`), distinct from the source's
  `ValueError("Item not found")` which is `RErr.notFound`.
-/

/-- A catalog entry of `data["items"]`: the dict built by `DataManager.add_item`.
`price` is the gold price; `ticket_price`, `camp_contribution`, `new_dollar`
are `-1` when unset (the defaults installed by `load_data`). -/
structure Item where
  price : ℚ
  category : String
  level : ℤ
  quality : ℤ
  ticket_price : ℚ
  camp_contribution : ℚ
  new_dollar : ℚ
deriving Repr, DecidableEq

/-- One element of a recipe's `materials` list: a dict with keys
`"name"` and `"quantity"`. -/
structure RecipeMat where
  name : String
  quantity : ℚ
deriving Repr, DecidableEq

/-- A catalog entry of `data["recipes"]` (see `DataManager.add_recipe`).
`quantity` is the output quantity per craft. -/
structure Recipe where
  materials : List RecipeMat
  quantity : ℚ
  crafting_level : ℤ
  recipe_type : String
  is_exclusive : Bool
deriving Repr, DecidableEq

/-- The state of `DataManager` referenced by the computation paths:
the two catalogs, the temp-price override dict and the override-mode flag. -/
structure DataManager where
  items : List (String × Item)
  recipes : List (String × Recipe)
  temp_prices : List (String × ℚ)
  use_custom_prices : Bool
deriving Repr

/-- `DataManager.get_item_price`: the temp-price override wins when
`use_custom_prices` is on and an override exists, else the catalog gold price.
The `getD 0` defaults are unreachable at the call sites: the first branch is
guarded by `isSome`, and the second is only reached for names present in
`items` (Python raises `KeyError` otherwise). -/
def get_item_price (dm : DataManager) (item_name : String) : ℚ :=
  if dm.use_custom_prices && (List.lookup item_name dm.temp_prices).isSome then
    (List.lookup item_name dm.temp_prices).getD 0
  else
    ((List.lookup item_name dm.items).map Item.price).getD 0

/-- The tree node dict returned by `DataManager.get_recipe_tree`.
`price` is `some` exactly on leaf (non-recipe) nodes, which is the only case
where the Python dict carries a `"price"` key. -/
inductive RNode : Type where
  | mk (name : String) (quantity : ℚ) (level : ℕ) (is_recipe : Bool)
       (children : List RNode) (price : Option ℚ)
       (total_cost : ℚ) (unit_cost : ℚ)
deriving Repr

def RNode.name : RNode → String
  | .mk n _ _ _ _ _ _ _ => n

def RNode.quantity : RNode → ℚ
  | .mk _ q _ _ _ _ _ _ => q

def RNode.level : RNode → ℕ
  | .mk _ _ l _ _ _ _ _ => l

def RNode.is_recipe : RNode → Bool
  | .mk _ _ _ b _ _ _ _ => b

def RNode.children : RNode → List RNode
  | .mk _ _ _ _ cs _ _ _ => cs

def RNode.price : RNode → Option ℚ
  | .mk _ _ _ _ _ p _ _ => p

def RNode.total_cost : RNode → ℚ
  | .mk _ _ _ _ _ _ t _ => t

def RNode.unit_cost : RNode → ℚ
  | .mk _ _ _ _ _ _ _ u => u

/-- Failure modes of the embedded `get_recipe_tree`: the source's
`ValueError(f"Item not found: {item_name}")`, plus exhaustion of the explicit
fuel that stands in for Python's unbounded recursion. -/
inductive RErr : Type where
  | notFound (name : String)
  | outOfFuel
deriving Repr, DecidableEq

/-- The `for material in recipe["materials"]` loop of `get_recipe_tree`:
resolves each material at `material["quantity"] * quantity / recipe["quantity"]`
through the supplied recursive resolver, collecting the children in order and
accumulating their `total_cost`; the first error aborts the whole resolution. -/
def resolveMaterialsF (resolve : String → ℚ → ℕ → Except RErr RNode) :
    List RecipeMat → ℚ → ℚ → ℕ → Except RErr (List RNode × ℚ)
  | [], _, _, _ => .ok ([], 0)
  | m :: ms, q, outQ, lvl =>
    match resolve m.name (m.quantity * q / outQ) lvl with
    | .error e => .error e
    | .ok c =>
      match resolveMaterialsF resolve ms q outQ lvl with
      | .error e => .error e
      | .ok (cs, t) => .ok (c :: cs, c.total_cost + t)

/-- `DataManager.get_recipe_tree`, with explicit fuel for the recursion:
a recipe node resolves its materials recursively and sums their costs
(`unit_cost = total_cost / quantity`); a known item becomes a leaf priced by
`get_item_price`; an unknown name raises `Item not found`. -/
def getRecipeTree (dm : DataManager) : ℕ → String → ℚ → ℕ → Except RErr RNode
  | 0, _, _, _ => .error .outOfFuel
  | fuel + 1, item_name, quantity, level =>
    match List.lookup item_name dm.recipes with
    | some recipe =>
      match resolveMaterialsF (fun nm q l => getRecipeTree dm fuel nm q l)
          recipe.materials quantity recipe.quantity (level + 1) with
      | .error e => .error e
      | .ok (children, total_cost) =>
        .ok (.mk item_name quantity level true children none
              total_cost (total_cost / quantity))
    | none =>
      match List.lookup item_name dm.items with
      | some _ =>
        let price := get_item_price dm item_name
        .ok (.mk item_name quantity level false [] (some price)
              (price * quantity) price)
      | none => .error (.notFound item_name)

/-- Python's built-in `round` on a number: round to the nearest integer,
ties to the even one (banker's rounding), as used by
`DataManager.round_quantity`. -/
def pyRound (q : ℚ) : ℤ :=
  let f : ℤ := ⌊q⌋
  let r : ℚ := q - f
  if r < 1 / 2 then f
  else if 1 / 2 < r then f + 1
  else if Even f then f else f + 1

/-- `DataManager.round_quantity`: snap to `round(quantity)` when within
`threshold` (default `1e-4`) of it, otherwise take the ceiling. -/
def round_quantity (quantity : ℚ) (threshold : ℚ := 1 / 10000) : ℤ :=
  let rounded := pyRound quantity
  if |quantity - (rounded : ℚ)| < threshold then rounded
  else ⌈quantity⌉

/-- The recipe of the spec's Plank scenario: `materials=[(Wood,2)]`,
`outputQuantity=1`. -/
def plankRecipe : Recipe where
  materials := [{ name := "Wood", quantity := 2 }]
  quantity := 1
  crafting_level := 1
  recipe_type := "木工"
  is_exclusive := false

/-- The catalog of the spec's Plank scenario: material `Wood` at gold price
10 with no ticket/camp price, recipe `Plank` as above, no overrides. -/
def woodDM : DataManager where
  items := [("Wood", { price := 10, category := "木材", level := 1, quality := 1,
                       ticket_price := -1, camp_contribution := -1, new_dollar := -1 })]
  recipes := [("Plank", plankRecipe)]
  temp_prices := []
  use_custom_prices := false

/-- The tree `get_recipe_tree("Plank", 3)` returns on `woodDM`. -/
def plankNode : RNode :=
  .mk "Plank" 3 0 true [.mk "Wood" 6 1 false [] (some 10) 60 10] none 60 20

/-- The `for material in recipe["materials"]` loop of
`MaterialTrackingPage.get_base_materials`: each material's sub-result is
merged into the accumulated dict by keywise addition (absent keys read as 0),
through the supplied recursive aggregator. `none` (no result within fuel)
propagates. -/
def gbmMaterialsF (resolve : String → ℚ → Option (String → ℚ)) :
    List RecipeMat → ℚ → ℚ → (String → ℚ) → Option (String → ℚ)
  | [], _, _, acc => some acc
  | m :: ms, q, outQ, acc =>
    match resolve m.name (m.quantity * q / outQ) with
    | none => none
    | some sub => gbmMaterialsF resolve ms q outQ (fun n => acc n + sub n)

/-- `MaterialTrackingPage.get_base_materials`, with explicit fuel for the
recursion: a recipe is decomposed recursively (each material at
`material["quantity"] * quantity / recipe["quantity"]`), anything that is not
a recipe becomes the singleton mapping `{item: quantity}`. -/
def getBaseMaterials (dm : DataManager) : ℕ → String → ℚ → Option (String → ℚ)
  | 0, _, _ => none
  | fuel + 1, item, quantity =>
    match List.lookup item dm.recipes with
    | some recipe =>
      gbmMaterialsF (fun nm q => getBaseMaterials dm fuel nm q)
        recipe.materials quantity recipe.quantity (fun _ => 0)
    | none => some (fun n => if n = item then quantity else 0)

/-- `MaterialTrackingPage.get_total_materials`: the basket's entries are
aggregated one by one, merging each entry's `get_base_materials` result into
the running total by keywise addition. -/
def get_total_materials (dm : DataManager) (fuel : ℕ) :
    List (String × ℚ) → (String → ℚ) → Option (String → ℚ)
  | [], acc => some acc
  | (item, quantity) :: rest, acc =>
    match getBaseMaterials dm fuel item quantity with
    | none => none
    | some materials => get_total_materials dm fuel rest (fun n => acc n + materials n)

/-- The `channel_price` slot of a `prepare_materials_data` row: a scalar
(ticket price for label 1, gold price for label 3) or the
(camp contribution, new dollar) pair for label 2. -/
abbrev ChanPrice := ℚ ⊕ (ℚ × ℚ)

/-- Reading a row's channel price as the scalar the source's
`x[3]` subscripting yields on label-1/label-3 rows. The `.inr` case is
unreachable at the call sites: label-1/label-3 rows always carry `.inl`
(Python would raise a TypeError there). -/
def scalarPrice : ChanPrice → ℚ
  | .inl s => s
  | .inr p => p.1

/-- Reading a row's channel price as the `(camp_price, new_dollar_price)`
pair the source destructures on label-2 rows. The `.inl` case is unreachable
at the call sites: label-2 rows always carry `.inr`. -/
def pairPrice : ChanPrice → ℚ × ℚ
  | .inl s => (s, s)
  | .inr p => p

/-- One row `[material, quantity, channel_label, channel_price,
purchase_price]` of `MaterialTrackingPage.prepare_materials_data`. -/
structure MatRow where
  material : String
  quantity : ℚ
  channel_label : ℕ
  channel_price : ChanPrice
  purchase_price : ℚ

/-- `MaterialTrackingPage.prepare_materials_data`: one row per aggregated
material; label 1 if the ticket price is set, else 2 if the camp contribution
is set, else 3; the row's channel price follows the label and the purchase
price is the catalog gold price. Materials absent from the catalog are
dropped (Python raises `KeyError` on them). -/
def prepare_materials_data (base_materials_data : List (String × Item))
    (total_materials : List (String × ℚ)) : List MatRow :=
  total_materials.filterMap (fun mq =>
    (List.lookup mq.1 base_materials_data).map (fun item_data =>
      { material := mq.1
        quantity := mq.2
        channel_label :=
          if item_data.ticket_price ≠ (-1 : ℚ) then 1
          else if item_data.camp_contribution ≠ (-1 : ℚ) then 2 else 3
        channel_price :=
          if item_data.ticket_price ≠ (-1 : ℚ) then .inl item_data.ticket_price
          else if item_data.camp_contribution ≠ (-1 : ℚ) then
            .inr (item_data.camp_contribution, item_data.new_dollar)
          else .inl item_data.price
        purchase_price := item_data.price }))

/-- The sort key `x[3] / x[4]` of the ticket channel (`A.sort` in
`split_materials`): channel price over stored gold price. -/
def keyA (r : MatRow) : ℚ := scalarPrice r.channel_price / r.purchase_price

/-- The sort key `x[3][0] / x[4]` of the camp channel (`B.sort` in
`split_materials`): camp contribution over stored gold price (the new-dollar
component is not consulted). -/
def keyB (r : MatRow) : ℚ := (pairPrice r.channel_price).1 / r.purchase_price

/-- `MaterialTrackingPage.split_materials`: partition the rows by channel
label, then sort A ascending by `keyA` and B ascending by `keyB` (Python
`list.sort` is stable; `List.insertionSort` with the `≤`-on-key relation is
the same stable ascending sort). C is left unsorted. -/
def split_materials (materials_data : List MatRow) :
    List MatRow × List MatRow × List MatRow :=
  let A := materials_data.filter (fun m => m.channel_label == 1)
  let B := materials_data.filter (fun m => m.channel_label == 2)
  let C := materials_data.filter (fun m => m.channel_label == 3)
  (A.insertionSort (fun x y => keyA x ≤ keyA y),
   B.insertionSort (fun x y => keyB x ≤ keyB y),
   C)

/-- One entry `[material, ticket_cost, gold_cost_A]` of the ticket-channel
cumulative curve built by `expand_A`. -/
structure AEntry where
  material : String
  ticket_cost : ℚ
  gold_cost : ℚ

/-- One entry `[material, camp_cost, new_dollar_cost, gold_cost_B]` of the
camp-channel cumulative curve built by `expand_B`. -/
structure BEntry where
  material : String
  camp_cost : ℚ
  new_dollar_cost : ℚ
  gold_cost : ℚ

/-- The inner `for _ in range(round_quantity(quantity))` loop of `expand_A`:
emit one entry per unit, advancing the running ticket cost by the unit ticket
price and decrementing the running remaining-gold cost by the unit gold price
when that price is set; also returns the final running totals. -/
def expandAUnits (material : String) (ticket_price gold_price : ℚ) :
    ℕ → ℚ → ℚ → List AEntry × ℚ × ℚ
  | 0, ticket_cost, gold_cost_A => ([], ticket_cost, gold_cost_A)
  | n + 1, ticket_cost, gold_cost_A =>
    let tc := ticket_cost + ticket_price
    let gc := if gold_price ≠ -1 then gold_cost_A - gold_price else gold_cost_A
    let rest := expandAUnits material ticket_price gold_price n tc gc
    (⟨material, tc, gc⟩ :: rest.1, rest.2)

/-- The outer material loop of `expand_A`, threading the two running
totals through `expandAUnits`. -/
def expandAAux : List MatRow → ℚ → ℚ → List AEntry
  | [], _, _ => []
  | m :: ms, ticket_cost, gold_cost_A =>
    let u := expandAUnits m.material (scalarPrice m.channel_price)
      m.purchase_price (round_quantity m.quantity).toNat ticket_cost gold_cost_A
    u.1 ++ expandAAux ms u.2.1 u.2.2

/-- `MaterialTrackingPage.expand_A`: the running ticket cost starts at 0 and
the running remaining-gold cost at `sum(m[1] * m[4] for m in A if m[4] != -1)`. -/
def expand_A (A : List MatRow) : List AEntry :=
  expandAAux A 0
    (((A.filter (fun m => m.purchase_price != -1)).map
      (fun m => m.quantity * m.purchase_price)).sum)

/-- The inner unit loop of `expand_B`: as `expandAUnits` but advancing the
camp and new-dollar running costs together. -/
def expandBUnits (material : String) (camp_price new_dollar_price gold_price : ℚ) :
    ℕ → ℚ → ℚ → ℚ → List BEntry × ℚ × ℚ × ℚ
  | 0, camp_cost, new_dollar_cost, gold_cost_B =>
    ([], camp_cost, new_dollar_cost, gold_cost_B)
  | n + 1, camp_cost, new_dollar_cost, gold_cost_B =>
    let cc := camp_cost + camp_price
    let nc := new_dollar_cost + new_dollar_price
    let gc := if gold_price ≠ -1 then gold_cost_B - gold_price else gold_cost_B
    let rest := expandBUnits material camp_price new_dollar_price gold_price n cc nc gc
    (⟨material, cc, nc, gc⟩ :: rest.1, rest.2)

/-- The outer material loop of `expand_B`. -/
def expandBAux : List MatRow → ℚ → ℚ → ℚ → List BEntry
  | [], _, _, _ => []
  | m :: ms, camp_cost, new_dollar_cost, gold_cost_B =>
    let u := expandBUnits m.material (pairPrice m.channel_price).1
      (pairPrice m.channel_price).2 m.purchase_price
      (round_quantity m.quantity).toNat camp_cost new_dollar_cost gold_cost_B
    u.1 ++ expandBAux ms u.2.1 u.2.2.1 u.2.2.2

/-- `MaterialTrackingPage.expand_B`: camp and new-dollar running costs start
at 0, the remaining-gold cost at `sum(m[1] * m[4] for m in B if m[4] != -1)`. -/
def expand_B (B : List MatRow) : List BEntry :=
  expandBAux B 0 0
    (((B.filter (fun m => m.purchase_price != -1)).map
      (fun m => m.quantity * m.purchase_price)).sum)

/-- `A1[k] += 1` on a quantity dict read with default 0. -/
def bump (f : String → ℚ) (k : String) : String → ℚ :=
  fun n => if n = k then f k + 1 else f n

/-- `A1[k] = v` on a quantity dict. -/
def setQ (f : String → ℚ) (k : String) (v : ℚ) : String → ℚ :=
  fun n => if n = k then v else f n

/-- The result `(A1, A2, A3, temp_A)` of `calculate_A_materials`: the
acquired / gold-fallback / unavailable quantity dicts and the last accepted
curve entry (`none` models the initial `[None, 0, 0]` sentinel). -/
structure ABuckets where
  A1 : String → ℚ
  A2 : String → ℚ
  A3 : String → ℚ
  temp_A : Option AEntry

/-- The body of the `for item in self.A_expand` loop of
`calculate_A_materials`: an affordable entry bumps `A1` and becomes `temp_A`;
a rejected entry bumps `A2` when the entry's `gold_cost` field (the running
remaining-gold value, `item[2]`) differs from `-1`, else `A3`. -/
def calcAStep (max_tickets : ℚ) (st : ABuckets) (e : AEntry) : ABuckets :=
  if max_tickets ≥ e.ticket_cost then
    { st with A1 := bump st.A1 e.material, temp_A := some e }
  else if e.gold_cost ≠ -1 then
    { st with A2 := bump st.A2 e.material }
  else
    { st with A3 := bump st.A3 e.material }

/-- `MaterialTrackingPage.calculate_A_materials`: with the `-1` unlimited
sentinel every A row's raw quantity goes to `A1` and `temp_A` is the last
curve entry; otherwise each curve entry with cumulative ticket cost within
the cap bumps `A1` and becomes `temp_A`, and a rejected entry bumps `A2`
when the entry's `gold_cost` field differs from `-1`, else `A3`. -/
def calculate_A_materials (A : List MatRow) (A_expand : List AEntry)
    (max_tickets : ℚ) : ABuckets :=
  if max_tickets = -1 then
    { A1 := A.foldl (fun f item => setQ f item.material item.quantity) (fun _ => 0)
      A2 := fun _ => 0
      A3 := fun _ => 0
      temp_A := A_expand.getLast? }
  else
    A_expand.foldl (calcAStep max_tickets)
      { A1 := fun _ => 0, A2 := fun _ => 0, A3 := fun _ => 0, temp_A := none }

/-- The result `(B1, B2, B3, temp_B)` of `calculate_B_materials`. -/
structure BBuckets where
  B1 : String → ℚ
  B2 : String → ℚ
  B3 : String → ℚ
  temp_B : Option BEntry

/-- The body of the `for item in self.B_expand` loop of
`calculate_B_materials`: an entry within both caps (each check bypassed
independently by the `-1` sentinel) bumps `B1` and becomes `temp_B`; a
rejected entry bumps `B2` when the entry's `gold_cost` field (the running
remaining-gold value, `item[3]`) differs from `-1`, else `B3`. -/
def calcBStep (max_camp max_new_dollar : ℚ) (st : BBuckets) (e : BEntry) : BBuckets :=
  if (max_camp = -1 ∨ max_camp ≥ e.camp_cost) ∧
      (max_new_dollar = -1 ∨ max_new_dollar ≥ e.new_dollar_cost) then
    { st with B1 := bump st.B1 e.material, temp_B := some e }
  else if e.gold_cost ≠ -1 then
    { st with B2 := bump st.B2 e.material }
  else
    { st with B3 := bump st.B3 e.material }

/-- `MaterialTrackingPage.calculate_B_materials`: the unlimited branch needs
both caps at the `-1` sentinel; otherwise an entry is accepted only when each
cap is unlimited or covers its cumulative cost, and a rejected entry bumps
`B2` when the entry's `gold_cost` field differs from `-1`, else `B3`. -/
def calculate_B_materials (B : List MatRow) (B_expand : List BEntry)
    (max_camp max_new_dollar : ℚ) : BBuckets :=
  if max_camp = -1 ∧ max_new_dollar = -1 then
    { B1 := B.foldl (fun f item => setQ f item.material item.quantity) (fun _ => 0)
      B2 := fun _ => 0
      B3 := fun _ => 0
      temp_B := B_expand.getLast? }
  else
    B_expand.foldl (calcBStep max_camp max_new_dollar)
      { B1 := fun _ => 0, B2 := fun _ => 0, B3 := fun _ => 0, temp_B := none }

/-- The `total_cost` of one child resolution inside a recipe node of
`get_recipe_tree` (0 is never read: it is only summed under the hypothesis
that every child resolution succeeded). -/
def childTotalCost (dm : DataManager) (fuel : ℕ) (q outQ : ℚ) (lvl : ℕ)
    (m : RecipeMat) : ℚ :=
  match getRecipeTree dm fuel m.name (m.quantity * q / outQ) lvl with
  | .ok c => c.total_cost
  | .error _ => 0

/-- A catalog whose material `Stone` has no gold price (`-1` sentinel), no
override and no other channel price. -/
def stoneDM : DataManager where
  items := [("Stone", { price := -1, category := "矿物", level := 1, quality := 1,
                        ticket_price := -1, camp_contribution := -1, new_dollar := -1 })]
  recipes := []
  temp_prices := []
  use_custom_prices := false

/-- Recipe `A` of the spec's cycle scenario: requires one `B`. -/
def recA : Recipe where
  materials := [{ name := "B", quantity := 1 }]
  quantity := 1
  crafting_level := 1
  recipe_type := "未设定"
  is_exclusive := false

/-- Recipe `B` of the spec's cycle scenario: requires one `A`. -/
def recB : Recipe where
  materials := [{ name := "A", quantity := 1 }]
  quantity := 1
  crafting_level := 1
  recipe_type := "未设定"
  is_exclusive := false

/-- The spec's cycle scenario: recipe `A` requires `B` and recipe `B`
requires `A`. -/
def cycleDM : DataManager where
  items := []
  recipes := [("A", recA), ("B", recB)]
  temp_prices := []
  use_custom_prices := false

/-- A step of the ticket curve: cumulative ticket cost does not decrease and
remaining gold cost does not increase. -/
def AEntryStep (a b : AEntry) : Prop :=
  a.ticket_cost ≤ b.ticket_cost ∧ b.gold_cost ≤ a.gold_cost

/-- A step of the camp curve: cumulative camp and new-dollar costs do not
decrease and remaining gold cost does not increase. -/
def BEntryStep (a b : BEntry) : Prop :=
  a.camp_cost ≤ b.camp_cost ∧ a.new_dollar_cost ≤ b.new_dollar_cost ∧
  b.gold_cost ≤ a.gold_cost

/-- Ticket-channel row with channel price 5 and no gold price. -/
def row7a : MatRow where
  material := "M1"
  quantity := 1
  channel_label := 1
  channel_price := .inl 5
  purchase_price := -1

/-- Ticket-channel row with channel price 2 and no gold price. -/
def row7b : MatRow where
  material := "M2"
  quantity := 1
  channel_label := 1
  channel_price := .inl 2
  purchase_price := -1

/-- Two ticket-channel materials, both with the gold price unset. -/
def ex7rows : List MatRow := [row7a, row7b]

/-- Ticket-channel row with fractional demand 5/2, ticket price 4, gold
price 9. -/
def rowC5 : MatRow where
  material := "M"
  quantity := 5 / 2
  channel_label := 1
  channel_price := .inl 4
  purchase_price := 9

/-- A ticket channel holding the single fractional-demand row `rowC5`. -/
def exC5 : List MatRow := [rowC5]

/-- Ticket-channel row: quantity 1, ticket price 5, gold price unset. -/
def rowC3 : MatRow where
  material := "M"
  quantity := 1
  channel_label := 1
  channel_price := .inl 5
  purchase_price := -1

/-- A ticket channel holding the single no-gold-price row `rowC3`. -/
def exC3 : List MatRow := [rowC3]

/-- Ticket-channel row with everything set and non-negative. -/
def rowC8a : MatRow where
  material := "MA"
  quantity := 2
  channel_label := 1
  channel_price := .inl 3
  purchase_price := 7

/-- Camp-channel row with everything set and non-negative. -/
def rowC8b : MatRow where
  material := "MB"
  quantity := 1
  channel_label := 2
  channel_price := .inr (2, 3)
  purchase_price := 5

/-- A one-material ticket channel with non-negative prices. -/
def exC8A : List MatRow := [rowC8a]

/-- A one-material camp channel with non-negative prices. -/
def exC8B : List MatRow := [rowC8b]

/-- Ticket-channel row whose quantity 1/2 is rounded up to 1 (gold price 1). -/
def rowC10a : MatRow where
  material := "M1"
  quantity := 1 / 2
  channel_label := 1
  channel_price := .inl 1
  purchase_price := 1

/-- Ticket-channel row whose quantity 5 + 1/20000 is snapped down to 5
(gold price 100000). -/
def rowC10b : MatRow where
  material := "M2"
  quantity := 100001 / 20000
  channel_label := 1
  channel_price := .inl 1
  purchase_price := 100000

/-- A ticket channel mixing a rounded-up and a snapped-down quantity. -/
def exC10 : List MatRow := [rowC10a, rowC10b]

/-- A ticket channel holding only the rounded-up row `rowC10a`. -/
def exC10w : List MatRow := [rowC10a]

/-- Camp-channel row whose quantity 1/2 is rounded up to 1 (camp price 1,
new-dollar price 1, gold price 1). -/
def rowC10c : MatRow where
  material := "MC"
  quantity := 1 / 2
  channel_label := 2
  channel_price := .inr (1, 1)
  purchase_price := 1

/-- A camp channel holding only the rounded-up row `rowC10c`. -/
def exC10B : List MatRow := [rowC10c]

/-! Theorems about the embedded program. -/

/-- Evaluation helper: `round_quantity` snaps to `pyRound` inside the
threshold. -/
theorem round_quantity_eq_of_near (q : ℚ) (n : ℤ) (hpr : pyRound q = n)
    (h1 : -(1 / 10000) < q - (n : ℚ)) (h2 : q - (n : ℚ) < 1 / 10000) :
    round_quantity q = n := by
  unfold round_quantity
  rw [hpr]
  exact if_pos (abs_lt.mpr ⟨h1, h2⟩)

/-- Evaluation helper: `round_quantity` falls to the ceiling when `pyRound`
sits at least a threshold below the quantity. -/
theorem round_quantity_eq_ceil_right (q : ℚ) (n : ℤ) (hpr : pyRound q = n)
    (h : 1 / 10000 ≤ q - (n : ℚ)) : round_quantity q = ⌈q⌉ := by
  unfold round_quantity
  rw [hpr]
  exact if_neg (not_lt.mpr (le_abs.mpr (Or.inl h)))

/-- Evaluation helper: `round_quantity` falls to the ceiling when `pyRound`
sits at least a threshold above the quantity. -/
theorem round_quantity_eq_ceil_left (q : ℚ) (n : ℤ) (hpr : pyRound q = n)
    (h : q - (n : ℚ) ≤ -(1 / 10000)) : round_quantity q = ⌈q⌉ := by
  unfold round_quantity
  rw [hpr]
  exact if_neg (not_lt.mpr (le_abs.mpr (Or.inr (by linarith))))

/-- Any integer within 1/2 of `q` is `pyRound q`: banker's rounding agrees
with every round-to-nearest once there is a unique nearest integer. -/
theorem pyRound_eq_of_near (q : ℚ) (n : ℤ) (h : |q - (n : ℚ)| < 1 / 2) :
    pyRound q = n := by
  rw [abs_lt] at h
  obtain ⟨h1, h2⟩ := h
  by_cases hq : (n : ℚ) ≤ q
  · have hf : ⌊q⌋ = n := Int.floor_eq_iff.mpr ⟨hq, by linarith⟩
    simp only [pyRound, hf]
    rw [if_pos (by linarith)]
  · push_neg at hq
    have hf : ⌊q⌋ = n - 1 := Int.floor_eq_iff.mpr ⟨by push_cast; linarith, by push_cast; linarith⟩
    simp only [pyRound, hf]
    rw [if_neg (by push_cast; linarith), if_pos (by push_cast; linarith)]
    omega

/-- Any integer within 1/2 of `q` is `round q`. -/
theorem round_eq_of_near (q : ℚ) (n : ℤ) (h : |q - (n : ℚ)| < 1 / 2) :
    round q = n := by
  rw [abs_lt] at h
  obtain ⟨h1, h2⟩ := h
  rw [round_eq]
  exact Int.floor_eq_iff.mpr ⟨by linarith, by linarith⟩

/-- C6: for every rational quantity `q`, `round_quantity q` is `round q` when
`|q − round q| < 1e-4` and `⌈q⌉` otherwise; in particular
`round_quantity 2.99995 = 3`, `round_quantity 2.5001 = 3` and
`round_quantity 5.00003 = 5`. -/
theorem round_quantity_correct :
    (∀ q : ℚ,
      (|q - (round q : ℚ)| < 1 / 10000 → round_quantity q = round q) ∧
      (¬ |q - (round q : ℚ)| < 1 / 10000 → round_quantity q = ⌈q⌉)) ∧
    round_quantity (299995 / 100000) = 3 ∧
    round_quantity (25001 / 10000) = 3 ∧
    round_quantity (500003 / 100000) = 5 := by
  refine ⟨fun q => ⟨fun h => ?_, fun h => ?_⟩, ?_, ?_, ?_⟩
  · have hpr : pyRound q = round q :=
      pyRound_eq_of_near q (round q) (lt_trans h (by norm_num))
    unfold round_quantity
    rw [hpr]
    exact if_pos h
  · have hfar : ¬ |q - (pyRound q : ℚ)| < 1 / 10000 := by
      intro hc
      exact h (by rw [round_eq_of_near q (pyRound q) (lt_trans hc (by norm_num))]; exact hc)
    unfold round_quantity
    exact if_neg hfar
  · rw [round_quantity_eq_of_near (299995 / 100000) 3 (by norm_num [pyRound])
      (by norm_num) (by norm_num)]
  · rw [round_quantity_eq_ceil_left (25001 / 10000) 3 (by norm_num [pyRound]) (by norm_num),
      Int.ceil_eq_iff]
    norm_num
  · rw [round_quantity_eq_of_near (500003 / 100000) 5 (by norm_num [pyRound])
      (by norm_num) (by norm_num)]

/-- Witness for C6: the snap branch applied at the concrete input `5.00003`. -/
theorem round_quantity_correct_witness :
    |(500003 / 100000 : ℚ) - ((round (500003 / 100000 : ℚ) : ℤ) : ℚ)| < 1 / 10000 ∧
    round_quantity (500003 / 100000) = round (500003 / 100000 : ℚ) := by
  have hr : (round (500003 / 100000 : ℚ) : ℤ) = 5 := by
    rw [round_eq]
    norm_num
  have h : |(500003 / 100000 : ℚ) - ((round (500003 / 100000 : ℚ) : ℤ) : ℚ)| < 1 / 10000 := by
    rw [hr, abs_lt]
    constructor <;> norm_num
  exact ⟨h, (round_quantity_correct.1 (500003 / 100000)).1 h⟩

/-- A successful `resolveMaterialsF` run resolved every material and summed
the children's `total_cost` in order. -/
theorem resolveMaterialsF_ok (resolve : String → ℚ → ℕ → Except RErr RNode) :
    ∀ (ms : List RecipeMat) (q outQ : ℚ) (lvl : ℕ) (cs : List RNode) (t : ℚ),
      resolveMaterialsF resolve ms q outQ lvl = .ok (cs, t) →
      (∀ m ∈ ms, ∃ c, resolve m.name (m.quantity * q / outQ) lvl = .ok c) ∧
      t = (ms.map (fun m =>
        match resolve m.name (m.quantity * q / outQ) lvl with
        | .ok c => c.total_cost
        | .error _ => 0)).sum := by
  intro ms
  induction ms with
  | nil =>
    intro q outQ lvl cs t h
    simp only [resolveMaterialsF, Except.ok.injEq, Prod.mk.injEq] at h
    refine ⟨by simp, ?_⟩
    simp [← h.2]
  | cons m ms ih =>
    intro q outQ lvl cs t h
    simp only [resolveMaterialsF] at h
    cases hres : resolve m.name (m.quantity * q / outQ) lvl with
    | error e =>
      rw [hres] at h
      simp at h
    | ok c =>
      rw [hres] at h
      cases hrec : resolveMaterialsF resolve ms q outQ lvl with
      | error e =>
        rw [hrec] at h
        simp at h
      | ok p =>
        obtain ⟨cs', t'⟩ := p
        rw [hrec] at h
        simp only [Except.ok.injEq, Prod.mk.injEq] at h
        obtain ⟨hall, hsum⟩ := ih q outQ lvl cs' t' hrec
        constructor
        · intro m' hm'
          rcases List.mem_cons.mp hm' with rfl | hm'
          · exact ⟨c, hres⟩
          · exact hall m' hm'
        · rw [← h.2, List.map_cons, List.sum_cons, hres, hsum]

/-- C1: on a successful resolution, a recipe node's `total_cost` is the sum
of the recursive costs of its materials at `materialQty * quantity /
outputQuantity` each, with `unit_cost = total_cost / quantity`; a leaf
material's cost is `effectivePrice * quantity`, where the effective price is
the temp-price override when override mode is active and an override exists,
else the catalog gold price; and resolving `Plank` at quantity 3 over the
Wood/Plank catalog yields `total_cost = 60`, `unit_cost = 20`. -/
theorem get_recipe_tree_bom_correct :
    (∀ (dm : DataManager) (fuel : ℕ) (item_name : String) (q : ℚ) (lvl : ℕ)
        (node : RNode) (r : Recipe),
      List.lookup item_name dm.recipes = some r →
      getRecipeTree dm (fuel + 1) item_name q lvl = .ok node →
      (∀ m ∈ r.materials,
        ∃ c, getRecipeTree dm fuel m.name (m.quantity * q / r.quantity) (lvl + 1) = .ok c) ∧
      node.total_cost =
        (r.materials.map (childTotalCost dm fuel q r.quantity (lvl + 1))).sum ∧
      node.unit_cost = node.total_cost / q) ∧
    (∀ (dm : DataManager) (fuel : ℕ) (item_name : String) (q : ℚ) (lvl : ℕ)
        (node : RNode),
      List.lookup item_name dm.recipes = none →
      getRecipeTree dm (fuel + 1) item_name q lvl = .ok node →
      node.total_cost = get_item_price dm item_name * q ∧
      node.unit_cost = get_item_price dm item_name) ∧
    (∀ (dm : DataManager) (item_name : String) (p : ℚ),
      dm.use_custom_prices = true →
      List.lookup item_name dm.temp_prices = some p →
      get_item_price dm item_name = p) ∧
    (∀ (dm : DataManager) (item_name : String) (it : Item),
      (dm.use_custom_prices = false ∨ List.lookup item_name dm.temp_prices = none) →
      List.lookup item_name dm.items = some it →
      get_item_price dm item_name = it.price) ∧
    (getRecipeTree woodDM 2 "Plank" 3 0).map (fun n => (n.total_cost, n.unit_cost)) =
      .ok (60, 20) := by
  refine ⟨?_, ?_, ?_, ?_, ?_⟩
  · intro dm fuel item_name q lvl node r hr hok
    simp only [getRecipeTree, hr] at hok
    cases hres : resolveMaterialsF (fun nm q l => getRecipeTree dm fuel nm q l)
        r.materials q r.quantity (lvl + 1) with
    | error e =>
      rw [hres] at hok
      simp at hok
    | ok p =>
      obtain ⟨cs, t⟩ := p
      rw [hres] at hok
      simp only [Except.ok.injEq] at hok
      obtain ⟨hall, hsum⟩ := resolveMaterialsF_ok _ r.materials q r.quantity (lvl + 1) cs t hres
      subst hok
      refine ⟨hall, ?_, by simp [RNode.total_cost, RNode.unit_cost]⟩
    -- total_cost = sum of childTotalCost over the materials
      simp only [RNode.total_cost]
      rw [hsum]
      rfl
  · intro dm fuel item_name q lvl node hr hok
    simp only [getRecipeTree, hr] at hok
    cases hit : List.lookup item_name dm.items with
    | none =>
      rw [hit] at hok
      simp at hok
    | some it =>
      rw [hit] at hok
      simp only [Except.ok.injEq] at hok
      subst hok
      simp [RNode.total_cost, RNode.unit_cost]
  · intro dm item_name p hmode hp
    unfold get_item_price
    rw [hmode, hp]
    simp
  · intro dm item_name it hnone hit
    unfold get_item_price
    rcases hnone with hmode | hp
    · rw [hmode, hit]
      simp
    · rw [hp, hit]
      simp
  · simp [getRecipeTree, resolveMaterialsF, get_item_price, woodDM, plankRecipe, Except.map,
      RNode.total_cost, RNode.unit_cost, List.lookup]
    norm_num

/-- Witness for C1: the recipe clause applied to the Plank scenario at
quantity 3, with all hypotheses discharged on the concrete catalog. -/
theorem get_recipe_tree_bom_correct_witness :
    (∀ m ∈ plankRecipe.materials,
      ∃ c, getRecipeTree woodDM 1 m.name (m.quantity * 3 / plankRecipe.quantity) 1 = .ok c) ∧
    plankNode.total_cost =
      (plankRecipe.materials.map (childTotalCost woodDM 1 3 plankRecipe.quantity 1)).sum ∧
    plankNode.unit_cost = plankNode.total_cost / 3 :=
  get_recipe_tree_bom_correct.1 woodDM 1 "Plank" 3 0 plankNode plankRecipe
    (by simp [woodDM, List.lookup])
    (by simp [getRecipeTree, resolveMaterialsF, get_item_price, woodDM, plankRecipe,
        plankNode, List.lookup, RNode.total_cost]
        norm_num)

/-- C4 (code evaluated at the failing input): resolving material `Stone`,
whose catalog gold price is the unset sentinel `-1` and which has no
override, does not fail — `get_recipe_tree` returns a leaf node whose cost
`-1 * 1 = -1` is computed from the sentinel itself. -/
theorem get_recipe_tree_unset_price_returns_sentinel_cost :
    (getRecipeTree stoneDM 1 "Stone" 1 0).map (fun n => (n.total_cost, n.price)) =
      .ok (-1, some (-1)) := by
  simp [getRecipeTree, get_item_price, stoneDM, Except.map, RNode.total_cost,
    RNode.price, List.lookup]

/-- C2 (code evaluated at the failing input): on the two-recipe cycle
`A -> B -> A`, resolution and aggregation never terminate — for every fuel
bound both `get_recipe_tree` and `get_base_materials` run out of fuel
(no `CyclicRecipe` error exists in the code, which recurses unboundedly). -/
theorem cyclic_recipes_exhaust_any_fuel :
    ∀ (fuel : ℕ) (q : ℚ) (lvl : ℕ),
      (getRecipeTree cycleDM fuel "A" q lvl = .error .outOfFuel ∧
       getRecipeTree cycleDM fuel "B" q lvl = .error .outOfFuel) ∧
      (getBaseMaterials cycleDM fuel "A" q = none ∧
       getBaseMaterials cycleDM fuel "B" q = none) := by
  intro fuel
  induction fuel with
  | zero => intro q lvl; exact ⟨⟨rfl, rfl⟩, ⟨rfl, rfl⟩⟩
  | succ n ih =>
    intro q lvl
    have hA : List.lookup "A" cycleDM.recipes = some recA := by
      simp [cycleDM, List.lookup]
    have hB : List.lookup "B" cycleDM.recipes = some recB := by
      simp [cycleDM, List.lookup]
    have ihA : ∀ (q : ℚ) (l : ℕ), getRecipeTree cycleDM n "A" q l = .error .outOfFuel :=
      fun q l => (ih q l).1.1
    have ihB : ∀ (q : ℚ) (l : ℕ), getRecipeTree cycleDM n "B" q l = .error .outOfFuel :=
      fun q l => (ih q l).1.2
    have ihgA : ∀ (q : ℚ), getBaseMaterials cycleDM n "A" q = none :=
      fun q => (ih q 0).2.1
    have ihgB : ∀ (q : ℚ), getBaseMaterials cycleDM n "B" q = none :=
      fun q => (ih q 0).2.2
    refine ⟨⟨?_, ?_⟩, ⟨?_, ?_⟩⟩ <;>
      simp [getRecipeTree, getBaseMaterials, resolveMaterialsF, gbmMaterialsF,
        hA, hB, recA, recB, ihA, ihB, ihgA, ihgB]

/-- Scaling the requested quantity scales every accumulated quantity in the
material loop of `get_base_materials`, provided the recursive aggregator
itself scales. -/
theorem gbmMaterialsF_scale (g : String → ℚ → Option (String → ℚ))
    (hg : ∀ (nm : String) (c q : ℚ), g nm (c * q) = (g nm q).map (fun f x => c * f x)) :
    ∀ (ms : List RecipeMat) (c q outQ : ℚ) (acc : String → ℚ),
      gbmMaterialsF g ms (c * q) outQ (fun x => c * acc x) =
        (gbmMaterialsF g ms q outQ acc).map (fun f x => c * f x) := by
  intro ms
  induction ms with
  | nil => intro c q outQ acc; simp [gbmMaterialsF]
  | cons m ms ih =>
    intro c q outQ acc
    simp only [gbmMaterialsF]
    have harg : m.quantity * (c * q) / outQ = c * (m.quantity * q / outQ) := by ring
    rw [harg, hg m.name c (m.quantity * q / outQ)]
    cases hsub : g m.name (m.quantity * q / outQ) with
    | none => simp
    | some sub =>
      simp only [Option.map_some']
      have hacc : (fun n => (fun x => c * acc x) n + (fun x => c * sub x) n) =
          (fun x => c * (fun n => acc n + sub n) x) := by
        funext n
        ring
      rw [hacc]
      exact ih c q outQ (fun n => acc n + sub n)

/-- Scaling the requested quantity scales the aggregated demand of
`get_base_materials` pointwise, with the same definedness. -/
theorem getBaseMaterials_scale (dm : DataManager) :
    ∀ (fuel : ℕ) (nm : String) (c q : ℚ),
      getBaseMaterials dm fuel nm (c * q) =
        (getBaseMaterials dm fuel nm q).map (fun f x => c * f x) := by
  intro fuel
  induction fuel with
  | zero => intro nm c q; simp [getBaseMaterials]
  | succ n ih =>
    intro nm c q
    simp only [getBaseMaterials]
    cases hr : List.lookup nm dm.recipes with
    | some r =>
      have h := gbmMaterialsF_scale (fun nm q => getBaseMaterials dm n nm q)
        (fun nm c q => ih nm c q) r.materials c q r.quantity (fun _ => 0)
      simpa using h
    | none =>
      simp only [Option.map_some']
      congr 1
      funext x
      by_cases hx : x = nm <;> simp [hx]

/-- C9: demand aggregation is additive in the requested quantity, per basket
entry and across basket entries: whenever aggregation of the basket
`[(P, q1+q2)]` succeeds, each material's aggregated quantity splits as the
sum of its aggregates for `q1` and for `q2`, and the two-entry basket
`[(P, q1), (P, q2)]` aggregates to that same sum. -/
theorem aggregation_additive :
    (∀ (dm : DataManager) (fuel : ℕ) (p : String) (q1 q2 : ℚ) (nm : String),
      (getBaseMaterials dm fuel p (q1 + q2)).isSome = true →
      ∃ v1 v2 : ℚ,
        (getBaseMaterials dm fuel p q1).map (fun f => f nm) = some v1 ∧
        (getBaseMaterials dm fuel p q2).map (fun f => f nm) = some v2 ∧
        (getBaseMaterials dm fuel p (q1 + q2)).map (fun f => f nm) = some (v1 + v2)) ∧
    (∀ (dm : DataManager) (fuel : ℕ) (p : String) (q1 q2 : ℚ) (nm : String),
      (get_total_materials dm fuel [(p, q1 + q2)] (fun _ => 0)).isSome = true →
      ∃ v1 v2 : ℚ,
        (get_total_materials dm fuel [(p, q1)] (fun _ => 0)).map (fun f => f nm) = some v1 ∧
        (get_total_materials dm fuel [(p, q2)] (fun _ => 0)).map (fun f => f nm) = some v2 ∧
        (get_total_materials dm fuel [(p, q1), (p, q2)] (fun _ => 0)).map
          (fun f => f nm) = some (v1 + v2) ∧
        (get_total_materials dm fuel [(p, q1 + q2)] (fun _ => 0)).map
          (fun f => f nm) = some (v1 + v2)) := by
  have key : ∀ (dm : DataManager) (fuel : ℕ) (p : String) (c : ℚ),
      getBaseMaterials dm fuel p c =
        (getBaseMaterials dm fuel p 1).map (fun f x => c * f x) := by
    intro dm fuel p c
    have h := getBaseMaterials_scale dm fuel p c 1
    rwa [mul_one] at h
  constructor
  · intro dm fuel p q1 q2 nm hsome
    cases hbase : getBaseMaterials dm fuel p 1 with
    | none =>
      rw [key dm fuel p (q1 + q2), hbase] at hsome
      simp at hsome
    | some f =>
      refine ⟨q1 * f nm, q2 * f nm, ?_, ?_, ?_⟩
      · rw [key dm fuel p q1, hbase]
        simp
      · rw [key dm fuel p q2, hbase]
        simp
      · rw [key dm fuel p (q1 + q2), hbase]
        simp
        ring
  · intro dm fuel p q1 q2 nm hsome
    cases hbase : getBaseMaterials dm fuel p 1 with
    | none =>
      rw [get_total_materials, key dm fuel p (q1 + q2), hbase] at hsome
      simp at hsome
    | some f =>
      refine ⟨0 + q1 * f nm, 0 + q2 * f nm, ?_, ?_, ?_, ?_⟩
      · rw [get_total_materials, key dm fuel p q1, hbase]
        simp [get_total_materials]
      · rw [get_total_materials, key dm fuel p q2, hbase]
        simp [get_total_materials]
      · rw [get_total_materials, key dm fuel p q1, hbase]
        simp only [Option.map_some']
        rw [get_total_materials, key dm fuel p q2, hbase]
        simp [get_total_materials]
      · rw [get_total_materials, key dm fuel p (q1 + q2), hbase]
        simp [get_total_materials]
        ring

/-- Witness for C9: aggregating the Plank basket at quantities 1 and 1
versus 2 over the Wood/Plank catalog, read at material `Wood`. -/
theorem aggregation_additive_witness :
    (get_total_materials woodDM 2 [("Plank", 1 + 1)] (fun _ => 0)).isSome = true ∧
    ∃ v1 v2 : ℚ,
      (get_total_materials woodDM 2 [("Plank", 1)] (fun _ => 0)).map
        (fun f => f "Wood") = some v1 ∧
      (get_total_materials woodDM 2 [("Plank", 1)] (fun _ => 0)).map
        (fun f => f "Wood") = some v2 ∧
      (get_total_materials woodDM 2 [("Plank", 1), ("Plank", 1)] (fun _ => 0)).map
        (fun f => f "Wood") = some (v1 + v2) ∧
      (get_total_materials woodDM 2 [("Plank", 1 + 1)] (fun _ => 0)).map
        (fun f => f "Wood") = some (v1 + v2) :=
  ⟨by simp [get_total_materials, getBaseMaterials, gbmMaterialsF, woodDM, plankRecipe,
      List.lookup],
   aggregation_additive.2 woodDM 2 "Plank" 1 1 "Wood"
    (by simp [get_total_materials, getBaseMaterials, gbmMaterialsF, woodDM, plankRecipe,
        List.lookup])⟩

/-- C7 amended: `split_materials` sorts the ticket channel ascending by
`keyA = channelPrice / storedGoldPrice` and the camp channel ascending by
`keyB = campContribution / storedGoldPrice` (the new-dollar price is not part
of the key), each output a permutation of its channel's rows; the divisor is
the raw stored gold price, which is `-1` when unset, so a material whose gold
price is unset is keyed by the negation of its channel price rather than by
its channel price alone. -/
theorem split_materials_sorted_by_stored_ratio :
    ∀ materials_data : List MatRow,
      List.Sorted (fun x y => keyA x ≤ keyA y) (split_materials materials_data).1 ∧
      List.Sorted (fun x y => keyB x ≤ keyB y) (split_materials materials_data).2.1 ∧
      (split_materials materials_data).1.Perm
        (materials_data.filter (fun m => m.channel_label == 1)) ∧
      (split_materials materials_data).2.1.Perm
        (materials_data.filter (fun m => m.channel_label == 2)) ∧
      (split_materials materials_data).2.2 =
        materials_data.filter (fun m => m.channel_label == 3) ∧
      (∀ r : MatRow, r.purchase_price = -1 →
        keyA r = -(scalarPrice r.channel_price)) := by
  intro md
  haveI hta : IsTotal MatRow (fun x y => keyA x ≤ keyA y) := ⟨fun a b => le_total _ _⟩
  haveI htra : IsTrans MatRow (fun x y => keyA x ≤ keyA y) :=
    ⟨fun a b c hab hbc => le_trans hab hbc⟩
  haveI htb : IsTotal MatRow (fun x y => keyB x ≤ keyB y) := ⟨fun a b => le_total _ _⟩
  haveI htrb : IsTrans MatRow (fun x y => keyB x ≤ keyB y) :=
    ⟨fun a b c hab hbc => le_trans hab hbc⟩
  refine ⟨List.sorted_insertionSort _ _, List.sorted_insertionSort _ _,
    List.perm_insertionSort _ _, List.perm_insertionSort _ _, rfl, ?_⟩
  intro r hr
  rw [keyA, hr]
  field_simp

/-- C7 counterexample: two ticket-channel materials with unset gold price and
channel prices 5 and 2 come out of `split_materials` in the order [5, 2] —
descending, not ascending, in channel price — because their sort keys are
5/(-1) = -5 and 2/(-1) = -2; so materials with an unset gold price are not
"ordered by channel price alone" as claimed. -/
theorem split_materials_unset_gold_counterexample :
    ((split_materials ex7rows).1.map (fun r => scalarPrice r.channel_price) = [5, 2]) ∧
    ¬ List.Sorted (fun a b : ℚ => a ≤ b)
        ((split_materials ex7rows).1.map (fun r => scalarPrice r.channel_price)) := by
  have hkey : keyA ⟨"M1", 1, 1, .inl 5, -1⟩ ≤ keyA ⟨"M2", 1, 1, .inl 2, -1⟩ := by
    norm_num [keyA, scalarPrice]
  have h1 : (split_materials ex7rows).1.map (fun r => scalarPrice r.channel_price) =
      [5, 2] := by
    simp [split_materials, ex7rows, List.insertionSort, List.orderedInsert,
      row7a, row7b, scalarPrice, hkey]
  refine ⟨h1, ?_⟩
  rw [h1]
  intro hs
  rcases List.sorted_cons.mp hs with ⟨h52, _⟩
  have : (5 : ℚ) ≤ 2 := h52 2 (by simp)
  norm_num at this

/-- Gluing lemma: a chain from `s` through `l1` continues through `l2` when
`l2` chains from the last element of `l1` (or from `s` when `l1` is empty). -/
theorem chain_append_lastD {α : Type} {R : α → α → Prop} :
    ∀ (l1 : List α) (s : α) (l2 : List α),
      List.Chain R s l1 → List.Chain R (l1.getLastD s) l2 → List.Chain R s (l1 ++ l2) := by
  intro l1
  induction l1 with
  | nil =>
    intro s l2 _ h2
    exact h2
  | cons a l ih =>
    intro s l2 h1 h2
    rw [List.cons_append]
    rcases List.chain_cons.mp h1 with ⟨hsa, hal⟩
    rw [List.getLastD_cons] at h2
    exact List.chain_cons.mpr ⟨hsa, ih a l2 hal h2⟩

/-- A chain headed by some element gives a head-free chain on the list. -/
theorem chain_drop_head {α : Type} {R : α → α → Prop} {s : α} {l : List α}
    (h : List.Chain R s l) : List.Chain' R l := by
  cases l with
  | nil => trivial
  | cons a t => exact (List.chain_cons.mp h).2

/-- The entries emitted for one ticket-channel material chain under
`AEntryStep` from any entry carrying the incoming running totals, provided
its ticket price is non-negative and its gold price is unset or
non-negative. -/
theorem expandAUnits_chain (material : String) (tp gp : ℚ)
    (htp : 0 ≤ tp) (hgp : gp = -1 ∨ 0 ≤ gp) :
    ∀ (n : ℕ) (tc gc : ℚ) (e : AEntry), e.ticket_cost = tc → e.gold_cost = gc →
      List.Chain AEntryStep e (expandAUnits material tp gp n tc gc).1 := by
  intro n
  induction n with
  | zero =>
    intro tc gc e h1 h2
    exact List.Chain.nil
  | succ k ih =>
    intro tc gc e h1 h2
    simp only [expandAUnits]
    refine List.chain_cons.mpr ⟨⟨?_, ?_⟩, ih _ _ _ rfl rfl⟩
    · simp only [AEntry.ticket_cost] at h1 ⊢
      rw [h1]
      linarith
    · simp only [AEntry.gold_cost] at h2 ⊢
      rw [h2]
      by_cases hg : gp = -1
      · simp [hg]
      · rcases hgp with h | h
        · exact absurd h hg
        · simp only [hg, if_pos (by simp [hg] : gp ≠ -1)]
          linarith

/-- The last emitted entry (or the incoming one when none is emitted) carries
exactly the final running totals of `expandAUnits`. -/
theorem expandAUnits_last (material : String) (tp gp : ℚ) :
    ∀ (n : ℕ) (tc gc : ℚ) (e : AEntry), e.ticket_cost = tc → e.gold_cost = gc →
      ((expandAUnits material tp gp n tc gc).1.getLastD e).ticket_cost =
        (expandAUnits material tp gp n tc gc).2.1 ∧
      ((expandAUnits material tp gp n tc gc).1.getLastD e).gold_cost =
        (expandAUnits material tp gp n tc gc).2.2 := by
  intro n
  induction n with
  | zero =>
    intro tc gc e h1 h2
    simpa [expandAUnits] using ⟨h1, h2⟩
  | succ k ih =>
    intro tc gc e h1 h2
    simp only [expandAUnits, List.getLastD_cons]
    exact ih _ _ _ rfl rfl

/-- The whole ticket curve of `expandAAux` chains under `AEntryStep` from any
entry carrying the incoming running totals, under the per-row price
hypotheses. -/
theorem expandAAux_chain :
    ∀ (A : List MatRow),
      (∀ r ∈ A, 0 ≤ scalarPrice r.channel_price ∧
        (r.purchase_price = -1 ∨ 0 ≤ r.purchase_price)) →
      ∀ (tc gc : ℚ) (e : AEntry), e.ticket_cost = tc → e.gold_cost = gc →
        List.Chain AEntryStep e (expandAAux A tc gc) := by
  intro A
  induction A with
  | nil =>
    intro _ tc gc e _ _
    exact List.Chain.nil
  | cons m ms ih =>
    intro hA tc gc e h1 h2
    have hm := hA m (List.mem_cons_self m ms)
    have hms : ∀ r ∈ ms, 0 ≤ scalarPrice r.channel_price ∧
        (r.purchase_price = -1 ∨ 0 ≤ r.purchase_price) :=
      fun r hr => hA r (List.mem_cons_of_mem m hr)
    simp only [expandAAux]
    refine chain_append_lastD _ _ _
      (expandAUnits_chain m.material _ _ hm.1 hm.2 _ tc gc e h1 h2) ?_
    obtain ⟨hl1, hl2⟩ := expandAUnits_last m.material (scalarPrice m.channel_price)
      m.purchase_price (round_quantity m.quantity).toNat tc gc e h1 h2
    exact ih hms _ _ _ hl1 hl2

/-- The entries emitted for one camp-channel material chain under
`BEntryStep` from any entry carrying the incoming running totals. -/
theorem expandBUnits_chain (material : String) (cp np gp : ℚ)
    (hcp : 0 ≤ cp) (hnp : 0 ≤ np) (hgp : gp = -1 ∨ 0 ≤ gp) :
    ∀ (n : ℕ) (cc nc gc : ℚ) (e : BEntry),
      e.camp_cost = cc → e.new_dollar_cost = nc → e.gold_cost = gc →
      List.Chain BEntryStep e (expandBUnits material cp np gp n cc nc gc).1 := by
  intro n
  induction n with
  | zero =>
    intro cc nc gc e h1 h2 h3
    exact List.Chain.nil
  | succ k ih =>
    intro cc nc gc e h1 h2 h3
    simp only [expandBUnits]
    refine List.chain_cons.mpr ⟨⟨?_, ?_, ?_⟩, ih _ _ _ _ rfl rfl rfl⟩
    · simp only [BEntry.camp_cost] at h1 ⊢
      rw [h1]
      linarith
    · simp only [BEntry.new_dollar_cost] at h2 ⊢
      rw [h2]
      linarith
    · simp only [BEntry.gold_cost] at h3 ⊢
      rw [h3]
      by_cases hg : gp = -1
      · simp [hg]
      · rcases hgp with h | h
        · exact absurd h hg
        · simp only [hg, if_pos (by simp [hg] : gp ≠ -1)]
          linarith

/-- The last emitted entry (or the incoming one when none is emitted) carries
exactly the final running totals of `expandBUnits`. -/
theorem expandBUnits_last (material : String) (cp np gp : ℚ) :
    ∀ (n : ℕ) (cc nc gc : ℚ) (e : BEntry),
      e.camp_cost = cc → e.new_dollar_cost = nc → e.gold_cost = gc →
      ((expandBUnits material cp np gp n cc nc gc).1.getLastD e).camp_cost =
        (expandBUnits material cp np gp n cc nc gc).2.1 ∧
      ((expandBUnits material cp np gp n cc nc gc).1.getLastD e).new_dollar_cost =
        (expandBUnits material cp np gp n cc nc gc).2.2.1 ∧
      ((expandBUnits material cp np gp n cc nc gc).1.getLastD e).gold_cost =
        (expandBUnits material cp np gp n cc nc gc).2.2.2 := by
  intro n
  induction n with
  | zero =>
    intro cc nc gc e h1 h2 h3
    exact ⟨h1, h2, h3⟩
  | succ k ih =>
    intro cc nc gc e h1 h2 h3
    simp only [expandBUnits, List.getLastD_cons]
    exact ih _ _ _ _ rfl rfl rfl

/-- The whole camp curve of `expandBAux` chains under `BEntryStep` from any
entry carrying the incoming running totals, under the per-row price
hypotheses. -/
theorem expandBAux_chain :
    ∀ (B : List MatRow),
      (∀ r ∈ B, 0 ≤ (pairPrice r.channel_price).1 ∧ 0 ≤ (pairPrice r.channel_price).2 ∧
        (r.purchase_price = -1 ∨ 0 ≤ r.purchase_price)) →
      ∀ (cc nc gc : ℚ) (e : BEntry),
        e.camp_cost = cc → e.new_dollar_cost = nc → e.gold_cost = gc →
        List.Chain BEntryStep e (expandBAux B cc nc gc) := by
  intro B
  induction B with
  | nil =>
    intro _ cc nc gc e _ _ _
    exact List.Chain.nil
  | cons m ms ih =>
    intro hB cc nc gc e h1 h2 h3
    have hm := hB m (List.mem_cons_self m ms)
    have hms : ∀ r ∈ ms, 0 ≤ (pairPrice r.channel_price).1 ∧
        0 ≤ (pairPrice r.channel_price).2 ∧
        (r.purchase_price = -1 ∨ 0 ≤ r.purchase_price) :=
      fun r hr => hB r (List.mem_cons_of_mem m hr)
    simp only [expandBAux]
    refine chain_append_lastD _ _ _
      (expandBUnits_chain m.material _ _ _ hm.1 hm.2.1 hm.2.2 _ cc nc gc e h1 h2 h3) ?_
    obtain ⟨hl1, hl2, hl3⟩ := expandBUnits_last m.material (pairPrice m.channel_price).1
      (pairPrice m.channel_price).2 m.purchase_price
      (round_quantity m.quantity).toNat cc nc gc e h1 h2 h3
    exact ih hms _ _ _ _ hl1 hl2 hl3

/-- C8: for every ticket or camp channel whose set prices are non-negative
(gold prices either unset or non-negative), the built curve is monotone:
cumulative ticket cost (resp. camp and new-dollar costs) never decreases
along the entries and the remaining gold cost never increases. -/
theorem expand_curves_monotone :
    (∀ A : List MatRow,
      (∀ r ∈ A, 0 ≤ scalarPrice r.channel_price ∧
        (r.purchase_price = -1 ∨ 0 ≤ r.purchase_price)) →
      List.Chain' AEntryStep (expand_A A)) ∧
    (∀ B : List MatRow,
      (∀ r ∈ B, 0 ≤ (pairPrice r.channel_price).1 ∧ 0 ≤ (pairPrice r.channel_price).2 ∧
        (r.purchase_price = -1 ∨ 0 ≤ r.purchase_price)) →
      List.Chain' BEntryStep (expand_B B)) := by
  constructor
  · intro A hA
    exact chain_drop_head (expandAAux_chain A hA _ _ ⟨"", 0, _⟩ rfl rfl)
  · intro B hB
    exact chain_drop_head (expandBAux_chain B hB _ _ _ ⟨"", 0, 0, _⟩ rfl rfl rfl)

/-- Witness for C8: the monotonicity of both curves on concrete one-material
channels with non-negative prices. -/
theorem expand_curves_monotone_witness :
    ((∀ r ∈ exC8A, 0 ≤ scalarPrice r.channel_price ∧
        (r.purchase_price = -1 ∨ 0 ≤ r.purchase_price)) ∧
      List.Chain' AEntryStep (expand_A exC8A)) ∧
    ((∀ r ∈ exC8B, 0 ≤ (pairPrice r.channel_price).1 ∧ 0 ≤ (pairPrice r.channel_price).2 ∧
        (r.purchase_price = -1 ∨ 0 ≤ r.purchase_price)) ∧
      List.Chain' BEntryStep (expand_B exC8B)) := by
  have hA : ∀ r ∈ exC8A, 0 ≤ scalarPrice r.channel_price ∧
      (r.purchase_price = -1 ∨ 0 ≤ r.purchase_price) := by
    intro r hr
    rcases List.mem_singleton.mp hr with rfl
    exact ⟨by norm_num [rowC8a, scalarPrice], Or.inr (by norm_num [rowC8a])⟩
  have hB : ∀ r ∈ exC8B, 0 ≤ (pairPrice r.channel_price).1 ∧
      0 ≤ (pairPrice r.channel_price).2 ∧
      (r.purchase_price = -1 ∨ 0 ≤ r.purchase_price) := by
    intro r hr
    rcases List.mem_singleton.mp hr with rfl
    exact ⟨by norm_num [rowC8b, pairPrice], by norm_num [rowC8b, pairPrice],
      Or.inr (by norm_num [rowC8b])⟩
  exact ⟨⟨hA, expand_curves_monotone.1 exC8A hA⟩, ⟨hB, expand_curves_monotone.2 exC8B hB⟩⟩

/-- Reading a bumped quantity dict: `+1` at the bumped key, unchanged
elsewhere. -/
theorem bump_apply (f : String → ℚ) (k nm : String) :
    bump f k nm = f nm + (if nm = k then 1 else 0) := by
  by_cases h : nm = k <;> simp [bump, h]

/-- One walk step moves exactly one unit into exactly one of the three
buckets, at the entry's material. -/
theorem calcAStep_sum (mt : ℚ) (st : ABuckets) (e : AEntry) (nm : String) :
    (calcAStep mt st e).A1 nm + (calcAStep mt st e).A2 nm + (calcAStep mt st e).A3 nm =
      st.A1 nm + st.A2 nm + st.A3 nm + (if e.material = nm then 1 else 0) := by
  by_cases h : e.material = nm
  · rw [if_pos h]
    have hb1 : ∀ f : String → ℚ, bump f e.material nm = f nm + 1 := by
      intro f
      rw [bump_apply, if_pos h.symm]
    unfold calcAStep
    split_ifs <;> simp only [hb1] <;> ring
  · rw [if_neg h]
    have hb0 : ∀ f : String → ℚ, bump f e.material nm = f nm := by
      intro f
      rw [bump_apply, if_neg (fun hEq => h hEq.symm)]
      ring
    unfold calcAStep
    split_ifs <;> simp only [hb0] <;> ring

/-- Folding the walk over a list of entries adds the per-material entry count
to the three buckets' total. -/
theorem calcA_fold_sum (mt : ℚ) :
    ∀ (es : List AEntry) (st : ABuckets) (nm : String),
      (es.foldl (calcAStep mt) st).A1 nm + (es.foldl (calcAStep mt) st).A2 nm +
        (es.foldl (calcAStep mt) st).A3 nm =
      st.A1 nm + st.A2 nm + st.A3 nm +
        ((es.countP (fun e => e.material == nm) : ℕ) : ℚ) := by
  intro es
  induction es with
  | nil =>
    intro st nm
    simp
  | cons e es ih =>
    intro st nm
    rw [List.foldl_cons, ih (calcAStep mt st e) nm, calcAStep_sum, List.countP_cons]
    by_cases h : e.material = nm
    · simp [h]
      ring
    · simp [h]

/-- `expandAUnits` emits `n` entries for its own material and none for any
other. -/
theorem expandAUnits_count (material : String) (tp gp : ℚ) (nm : String) :
    ∀ (n : ℕ) (tc gc : ℚ),
      (expandAUnits material tp gp n tc gc).1.countP (fun e => e.material == nm) =
        if material = nm then n else 0 := by
  intro n
  induction n with
  | zero =>
    intro tc gc
    simp [expandAUnits]
  | succ k ih =>
    intro tc gc
    simp only [expandAUnits, List.countP_cons]
    rw [ih]
    by_cases h : material = nm
    · simp [h]
    · simp [h]

/-- The ticket curve holds `round_quantity(quantity)` entries per material. -/
theorem expandAAux_count (nm : String) :
    ∀ (A : List MatRow) (tc gc : ℚ),
      (expandAAux A tc gc).countP (fun e => e.material == nm) =
        ((A.filter (fun r => r.material == nm)).map
          (fun r => (round_quantity r.quantity).toNat)).sum := by
  intro A
  induction A with
  | nil =>
    intro tc gc
    simp [expandAAux]
  | cons m ms ih =>
    intro tc gc
    simp only [expandAAux, List.countP_append]
    rw [expandAUnits_count, ih]
    by_cases h : m.material = nm <;> simp [List.filter_cons, h]

/-- Under distinct material names, filtering the channel rows by a member's
name leaves exactly that row. -/
theorem filter_material_eq_single :
    ∀ (A : List MatRow) (r : MatRow), r ∈ A → (A.map MatRow.material).Nodup →
      A.filter (fun x => x.material == r.material) = [r] := by
  intro A
  induction A with
  | nil =>
    intro r hr
    simp at hr
  | cons a as ih =>
    intro r hr hnd
    rw [List.map_cons, List.nodup_cons] at hnd
    obtain ⟨hnotin, hnd'⟩ := hnd
    rcases List.mem_cons.mp hr with rfl | hr'
    · rw [List.filter_cons, if_pos (by simp)]
      have hnil : as.filter (fun x => x.material == r.material) = [] := by
        rw [List.filter_eq_nil_iff]
        intro x hx
        simp only [beq_iff_eq]
        intro hEq
        exact hnotin (hEq ▸ List.mem_map_of_mem MatRow.material hx)
      rw [hnil]
    · have hne : a.material ≠ r.material := by
        intro hEq
        exact hnotin (hEq ▸ List.mem_map_of_mem MatRow.material hr')
      rw [List.filter_cons, if_neg (by simp [hne])]
      exact ih r hr' hnd'

/-- `pyRound` of a non-negative quantity is non-negative. -/
theorem pyRound_nonneg (q : ℚ) (hq : 0 ≤ q) : 0 ≤ pyRound q := by
  have hf : 0 ≤ ⌊q⌋ := Int.floor_nonneg.mpr hq
  simp only [pyRound]
  split_ifs <;> omega

/-- `round_quantity` of a non-negative quantity is non-negative. -/
theorem round_quantity_nonneg (q : ℚ) (hq : 0 ≤ q) : 0 ≤ round_quantity q := by
  simp only [round_quantity]
  split_ifs with h
  · exact pyRound_nonneg q hq
  · exact Int.ceil_nonneg hq

/-- The unlimited branch's assignment loop leaves keys it never sets
untouched. -/
theorem foldl_setQ_not_mem :
    ∀ (A : List MatRow) (f : String → ℚ) (key : String),
      key ∉ A.map MatRow.material →
      A.foldl (fun f item => setQ f item.material item.quantity) f key = f key := by
  intro A
  induction A with
  | nil =>
    intro f key _
    rfl
  | cons a as ih =>
    intro f key h
    rw [List.map_cons, List.mem_cons] at h
    push_neg at h
    rw [List.foldl_cons, ih _ key h.2]
    simp [setQ, h.1]

/-- Under distinct material names, the unlimited branch's assignment loop
reads back each row's raw quantity. -/
theorem foldl_setQ_value :
    ∀ (A : List MatRow) (f : String → ℚ) (r : MatRow), r ∈ A →
      (A.map MatRow.material).Nodup →
      A.foldl (fun f item => setQ f item.material item.quantity) f r.material =
        r.quantity := by
  intro A
  induction A with
  | nil =>
    intro f r hr
    simp at hr
  | cons a as ih =>
    intro f r hr hnd
    rw [List.map_cons, List.nodup_cons] at hnd
    obtain ⟨hnotin, hnd'⟩ := hnd
    rcases List.mem_cons.mp hr with rfl | hr'
    · rw [List.foldl_cons, foldl_setQ_not_mem as _ r.material hnotin]
      simp [setQ]
    · rw [List.foldl_cons]
      exact ih _ r hr' hnd'

/-- C5 amended: for the ticket channel under a finite cap (distinct material
names, non-negative demands), each material's `A1 + A2 + A3` bucket
quantities sum exactly to `round_quantity` of its aggregated demand; under
the `-1` unlimited sentinel the `A1` bucket instead receives the raw
(unrounded) demand and `A2`, `A3` stay zero, so the three buckets sum to the
raw demand. -/
theorem calculate_A_materials_partition :
    (∀ (A : List MatRow) (mt : ℚ) (r : MatRow),
      mt ≠ -1 → r ∈ A → (A.map MatRow.material).Nodup → 0 ≤ r.quantity →
      (calculate_A_materials A (expand_A A) mt).A1 r.material +
      (calculate_A_materials A (expand_A A) mt).A2 r.material +
      (calculate_A_materials A (expand_A A) mt).A3 r.material =
        ((round_quantity r.quantity : ℤ) : ℚ)) ∧
    (∀ (A : List MatRow) (mt : ℚ) (r : MatRow),
      mt = -1 → r ∈ A → (A.map MatRow.material).Nodup →
      (calculate_A_materials A (expand_A A) mt).A1 r.material = r.quantity ∧
      (calculate_A_materials A (expand_A A) mt).A2 r.material = 0 ∧
      (calculate_A_materials A (expand_A A) mt).A3 r.material = 0) := by
  constructor
  · intro A mt r hmt hr hnd hq
    unfold calculate_A_materials
    rw [if_neg hmt, calcA_fold_sum]
    simp only [expand_A]
    rw [expandAAux_count, filter_material_eq_single A r hr hnd]
    simp only [List.map_cons, List.map_nil, List.sum_cons, List.sum_nil, add_zero]
    rw [zero_add]
    exact_mod_cast Int.toNat_of_nonneg (round_quantity_nonneg r.quantity hq)
  · intro A mt r hmt hr hnd
    unfold calculate_A_materials
    rw [if_pos hmt]
    exact ⟨foldl_setQ_value A _ r hr hnd, rfl, rfl⟩

/-- C5 counterexample: with the unlimited ticket cap, a single ticket-channel
material with fractional demand 5/2 has `A1 + A2 + A3 = 5/2`, while
`round_quantity (5/2) = 3`, so the buckets do not partition the rounded
demand for every budget configuration. -/
theorem calculate_A_materials_unlimited_counterexample :
    (calculate_A_materials exC5 (expand_A exC5) (-1)).A1 "M" +
    (calculate_A_materials exC5 (expand_A exC5) (-1)).A2 "M" +
    (calculate_A_materials exC5 (expand_A exC5) (-1)).A3 "M" = 5 / 2 ∧
    ((round_quantity ((5 : ℚ) / 2) : ℤ) : ℚ) = 3 ∧
    ¬ ((5 : ℚ) / 2 = 3) := by
  refine ⟨?_, ?_, by norm_num⟩
  · simp [calculate_A_materials, exC5, rowC5, setQ]
  · rw [round_quantity_eq_ceil_right (5 / 2) 2 (by norm_num [pyRound]) (by norm_num)]
    have h : (⌈(5 : ℚ) / 2⌉ : ℤ) = 3 := by
      rw [Int.ceil_eq_iff]
      constructor <;> norm_num
    rw [h]
    norm_num

/-- Witness for C5: the finite-cap partition applied to a concrete channel
with demand 5/2 under ticket cap 0. -/
theorem calculate_A_materials_partition_witness :
    ((0 : ℚ) ≠ -1) ∧ rowC5 ∈ exC5 ∧ (exC5.map MatRow.material).Nodup ∧
    (0 : ℚ) ≤ rowC5.quantity ∧
    ((calculate_A_materials exC5 (expand_A exC5) 0).A1 rowC5.material +
     (calculate_A_materials exC5 (expand_A exC5) 0).A2 rowC5.material +
     (calculate_A_materials exC5 (expand_A exC5) 0).A3 rowC5.material =
      ((round_quantity rowC5.quantity : ℤ) : ℚ)) := by
  have h1 : (0 : ℚ) ≠ -1 := by norm_num
  have h2 : rowC5 ∈ exC5 := by simp [exC5]
  have h3 : (exC5.map MatRow.material).Nodup := by simp [exC5]
  have h4 : (0 : ℚ) ≤ rowC5.quantity := by norm_num [rowC5]
  exact ⟨h1, h2, h3, h4, calculate_A_materials_partition.1 exC5 0 rowC5 h1 h2 h3 h4⟩

/-- C3 (code evaluated at the failing input): a ticket-channel material with
ticket price 5 and NO gold price, under ticket cap 0, is routed to the
gold-fallback bucket `A2` (not `A3`): the rejection branch compares the
entry's cumulative remaining-gold field (here 0) with `-1` instead of the
material's gold price. -/
theorem calculate_A_materials_routes_no_gold_price_to_fallback :
    rowC3.purchase_price = -1 ∧
    (calculate_A_materials exC3 (expand_A exC3) 0).A2 "M" = 1 ∧
    (calculate_A_materials exC3 (expand_A exC3) 0).A3 "M" = 0 := by
  have hrq : round_quantity (1 : ℚ) = 1 :=
    round_quantity_eq_of_near 1 1 (by norm_num [pyRound]) (by norm_num) (by norm_num)
  refine ⟨rfl, ?_, ?_⟩ <;>
    norm_num [calculate_A_materials, calcAStep, expand_A, expandAAux, expandAUnits,
      bump, exC3, rowC3, scalarPrice, hrq]

/-- The final running totals of `expandAUnits`: `n` ticket-price increments
and, when the gold price is set, `n` gold-price decrements. -/
theorem expandAUnits_state (material : String) (tp gp : ℚ) :
    ∀ (n : ℕ) (tc gc : ℚ),
      (expandAUnits material tp gp n tc gc).2 =
        (tc + n * tp, gc - n * (if gp ≠ -1 then gp else 0)) := by
  intro n
  induction n with
  | zero =>
    intro tc gc
    simp [expandAUnits]
  | succ k ih =>
    intro tc gc
    simp only [expandAUnits]
    rw [ih, Prod.mk.injEq]
    constructor
    · push_cast
      ring
    · by_cases hg : gp = -1
      · simp [hg]
      · simp only [hg, ne_eq, not_false_eq_true, if_pos, if_true]
        push_cast
        ring

/-- `getLastD` distributes over append. -/
theorem getLastD_append_eq {α : Type} :
    ∀ (l1 l2 : List α) (e : α),
      (l1 ++ l2).getLastD e = l2.getLastD (l1.getLastD e) := by
  intro l1
  induction l1 with
  | nil =>
    intro l2 e
    rfl
  | cons a l ih =>
    intro l2 e
    rw [List.cons_append, List.getLastD_cons, ih, List.getLastD_cons]

/-- `getLastD` of a nonempty list ignores its default. -/
theorem getLastD_ne_nil {α : Type} {l : List α} (h : l ≠ []) (a b : α) :
    l.getLastD a = l.getLastD b := by
  cases l with
  | nil => exact absurd rfl h
  | cons x xs => rw [List.getLastD_cons, List.getLastD_cons]

/-- The last entry of the whole curve (or the incoming entry when the curve
is empty) holds the initial remaining gold minus one gold price per emitted
unit of each gold-priced material. -/
theorem expandAAux_gold_final :
    ∀ (A : List MatRow) (tc gc : ℚ) (e : AEntry),
      e.ticket_cost = tc → e.gold_cost = gc →
      ((expandAAux A tc gc).getLastD e).gold_cost =
        gc - (A.map (fun r => ((round_quantity r.quantity).toNat : ℚ) *
          (if r.purchase_price ≠ -1 then r.purchase_price else 0))).sum := by
  intro A
  induction A with
  | nil =>
    intro tc gc e _ h2
    simpa [expandAAux] using h2
  | cons m ms ih =>
    intro tc gc e h1 h2
    simp only [expandAAux]
    rw [getLastD_append_eq]
    obtain ⟨hl1, hl2⟩ := expandAUnits_last m.material (scalarPrice m.channel_price)
      m.purchase_price (round_quantity m.quantity).toNat tc gc e h1 h2
    rw [ih _ _ _ hl1 hl2, expandAUnits_state]
    simp only [List.map_cons, List.sum_cons]
    ring

/-- Summing a per-row value guarded by "gold price set" equals summing it
over the gold-priced rows. -/
theorem sum_map_ite_gold (f : MatRow → ℚ) :
    ∀ A : List MatRow,
      (A.map (fun r => if r.purchase_price = -1 then 0 else f r)).sum =
        ((A.filter (fun r => r.purchase_price != -1)).map f).sum := by
  intro A
  induction A with
  | nil => simp
  | cons a as ih =>
    by_cases h : a.purchase_price = -1
    · simp [List.filter_cons, h, ih]
    · simp [List.filter_cons, h, ih]

/-- Difference of two per-row sums over the same list is the sum of the
per-row differences. -/
theorem sum_map_sub (f g : MatRow → ℚ) :
    ∀ l : List MatRow,
      (l.map f).sum - (l.map g).sum = (l.map (fun r => f r - g r)).sum := by
  intro l
  induction l with
  | nil => simp
  | cons a as ih =>
    simp only [List.map_cons, List.sum_cons]
    rw [← ih]
    ring

/-- A list of non-positive rationals has non-positive sum. -/
theorem sum_nonpos_list : ∀ l : List ℚ, (∀ x ∈ l, x ≤ 0) → l.sum ≤ 0 := by
  intro l
  induction l with
  | nil =>
    intro _
    simp
  | cons a as ih =>
    intro hall
    have ha := hall a (List.mem_cons_self a as)
    have hs := ih (fun x hx => hall x (List.mem_cons_of_mem a hx))
    simp only [List.sum_cons]
    linarith

/-- A list of non-positive rationals with a negative member has negative
sum. -/
theorem sum_neg_list :
    ∀ l : List ℚ, (∀ x ∈ l, x ≤ 0) → (∃ x ∈ l, x < 0) → l.sum < 0 := by
  intro l
  induction l with
  | nil =>
    intro _ hex
    simp at hex
  | cons a as ih =>
    intro hall hex
    have ha := hall a (List.mem_cons_self a as)
    have hs := sum_nonpos_list as (fun x hx => hall x (List.mem_cons_of_mem a hx))
    simp only [List.sum_cons]
    rcases hex with ⟨x, hx, hneg⟩
    rcases List.mem_cons.mp hx with rfl | hx'
    · linarith
    · have := ih (fun y hy => hall y (List.mem_cons_of_mem a hy)) ⟨x, hx', hneg⟩
      linarith

/-- The last entry of a nonempty ticket curve carries remaining gold equal to
the sum, over the gold-priced materials, of
`(rawQuantity - round_quantity rawQuantity) * goldPrice`. -/
theorem expand_A_last_gold (A : List MatRow) (hq : ∀ r ∈ A, 0 ≤ r.quantity)
    (hne : expand_A A ≠ []) :
    ((expand_A A).getLastD ⟨"", 0, 0⟩).gold_cost =
      ((A.filter (fun r => r.purchase_price != -1)).map
        (fun r => (r.quantity - ((round_quantity r.quantity : ℤ) : ℚ)) *
          r.purchase_price)).sum := by
  have h1 := getLastD_ne_nil hne (⟨"", 0, 0⟩ : AEntry)
    ⟨"", 0, ((A.filter (fun m => m.purchase_price != -1)).map
      (fun m => m.quantity * m.purchase_price)).sum⟩
  rw [h1]
  unfold expand_A at *
  rw [expandAAux_gold_final A 0
    ((A.filter (fun m => m.purchase_price != -1)).map
      (fun m => m.quantity * m.purchase_price)).sum
    ⟨"", 0, ((A.filter (fun m => m.purchase_price != -1)).map
      (fun m => m.quantity * m.purchase_price)).sum⟩ rfl rfl]
  rw [show (fun r : MatRow => ((round_quantity r.quantity).toNat : ℚ) *
      (if r.purchase_price ≠ -1 then r.purchase_price else 0)) =
    (fun r : MatRow => if r.purchase_price = -1 then 0 else
      ((round_quantity r.quantity).toNat : ℚ) * r.purchase_price) from
    funext (fun r => by by_cases h : r.purchase_price = -1 <;> simp [h])]
  rw [sum_map_ite_gold, sum_map_sub]
  refine congrArg List.sum (List.map_congr_left ?_)
  intro r hrf
  have hr : r ∈ A := List.mem_of_mem_filter hrf
  rw [show (((round_quantity r.quantity).toNat : ℕ) : ℚ) =
      ((round_quantity r.quantity : ℤ) : ℚ) by
    exact_mod_cast Int.toNat_of_nonneg (round_quantity_nonneg r.quantity (hq r hr))]
  ring

/-- The final running totals of `expandBUnits`: `n` camp-price and
new-dollar-price increments and, when the gold price is set, `n` gold-price
decrements. -/
theorem expandBUnits_state (material : String) (cp np gp : ℚ) :
    ∀ (n : ℕ) (cc nc gc : ℚ),
      (expandBUnits material cp np gp n cc nc gc).2 =
        (cc + n * cp, nc + n * np, gc - n * (if gp ≠ -1 then gp else 0)) := by
  intro n
  induction n with
  | zero =>
    intro cc nc gc
    simp [expandBUnits]
  | succ k ih =>
    intro cc nc gc
    simp only [expandBUnits]
    rw [ih]
    simp only [Prod.mk.injEq]
    refine ⟨?_, ?_, ?_⟩
    · push_cast
      ring
    · push_cast
      ring
    · by_cases hg : gp = -1
      · simp [hg]
      · simp only [hg, ne_eq, not_false_eq_true, if_pos, if_true]
        push_cast
        ring

/-- The last entry of the whole camp curve (or the incoming entry when the
curve is empty) holds the initial remaining gold minus one gold price per
emitted unit of each gold-priced material. -/
theorem expandBAux_gold_final :
    ∀ (B : List MatRow) (cc nc gc : ℚ) (e : BEntry),
      e.camp_cost = cc → e.new_dollar_cost = nc → e.gold_cost = gc →
      ((expandBAux B cc nc gc).getLastD e).gold_cost =
        gc - (B.map (fun r => ((round_quantity r.quantity).toNat : ℚ) *
          (if r.purchase_price ≠ -1 then r.purchase_price else 0))).sum := by
  intro B
  induction B with
  | nil =>
    intro cc nc gc e _ _ h3
    simpa [expandBAux] using h3
  | cons m ms ih =>
    intro cc nc gc e h1 h2 h3
    simp only [expandBAux]
    rw [getLastD_append_eq]
    obtain ⟨hl1, hl2, hl3⟩ := expandBUnits_last m.material (pairPrice m.channel_price).1
      (pairPrice m.channel_price).2 m.purchase_price
      (round_quantity m.quantity).toNat cc nc gc e h1 h2 h3
    rw [ih _ _ _ _ hl1 hl2 hl3, expandBUnits_state]
    simp only [List.map_cons, List.sum_cons]
    ring

/-- The last entry of a nonempty camp curve carries remaining gold equal to
the sum, over the gold-priced materials, of
`(rawQuantity - round_quantity rawQuantity) * goldPrice`. -/
theorem expand_B_last_gold (B : List MatRow) (hq : ∀ r ∈ B, 0 ≤ r.quantity)
    (hne : expand_B B ≠ []) :
    ((expand_B B).getLastD ⟨"", 0, 0, 0⟩).gold_cost =
      ((B.filter (fun r => r.purchase_price != -1)).map
        (fun r => (r.quantity - ((round_quantity r.quantity : ℤ) : ℚ)) *
          r.purchase_price)).sum := by
  have h1 := getLastD_ne_nil hne (⟨"", 0, 0, 0⟩ : BEntry)
    ⟨"", 0, 0, ((B.filter (fun m => m.purchase_price != -1)).map
      (fun m => m.quantity * m.purchase_price)).sum⟩
  rw [h1]
  unfold expand_B at *
  rw [expandBAux_gold_final B 0 0
    ((B.filter (fun m => m.purchase_price != -1)).map
      (fun m => m.quantity * m.purchase_price)).sum
    ⟨"", 0, 0, ((B.filter (fun m => m.purchase_price != -1)).map
      (fun m => m.quantity * m.purchase_price)).sum⟩ rfl rfl rfl]
  rw [show (fun r : MatRow => ((round_quantity r.quantity).toNat : ℚ) *
      (if r.purchase_price ≠ -1 then r.purchase_price else 0)) =
    (fun r : MatRow => if r.purchase_price = -1 then 0 else
      ((round_quantity r.quantity).toNat : ℚ) * r.purchase_price) from
    funext (fun r => by by_cases h : r.purchase_price = -1 <;> simp [h])]
  rw [sum_map_ite_gold, sum_map_sub]
  refine congrArg List.sum (List.map_congr_left ?_)
  intro r hrf
  have hr : r ∈ B := List.mem_of_mem_filter hrf
  rw [show (((round_quantity r.quantity).toNat : ℕ) : ℚ) =
      ((round_quantity r.quantity : ℤ) : ℚ) by
    exact_mod_cast Int.toNat_of_nonneg (round_quantity_nonneg r.quantity (hq r hr))]
  ring

/-- Every unit loop of the camp curve emits exactly `n` entries. -/
theorem expandBUnits_length (material : String) (cp np gp : ℚ) :
    ∀ (n : ℕ) (cc nc gc : ℚ),
      (expandBUnits material cp np gp n cc nc gc).1.length = n := by
  intro n
  induction n with
  | zero =>
    intro cc nc gc
    rfl
  | succ k ih =>
    intro cc nc gc
    simp only [expandBUnits, List.length_cons, ih]

/-- The camp curve holds `round_quantity(quantity)` entries per row. -/
theorem expandBAux_length :
    ∀ (B : List MatRow) (cc nc gc : ℚ),
      (expandBAux B cc nc gc).length =
        (B.map (fun r => (round_quantity r.quantity).toNat)).sum := by
  intro B
  induction B with
  | nil =>
    intro cc nc gc
    rfl
  | cons m ms ih =>
    intro cc nc gc
    simp only [expandBAux, List.length_append, expandBUnits_length, ih,
      List.map_cons, List.sum_cons]

/-- C10 amended: the remaining-gold value of the last entry of a nonempty
ticket or camp curve equals the sum over that channel's gold-priced
materials of `(rawQuantity - round_quantity rawQuantity) * goldPrice` (the
initial remaining-gold total is computed from the raw fractional quantities
while each emitted unit subtracts a full per-unit gold price); consequently
either curve's remaining gold ends strictly negative whenever some
gold-priced material's quantity was rounded up to a strictly larger integer
(with a positive gold price) and no gold-priced material's quantity was
snapped DOWN below its raw value — not, as originally claimed, whenever any
material was rounded up. -/
theorem expand_curves_final_remaining_gold :
    (∀ A : List MatRow, (∀ r ∈ A, 0 ≤ r.quantity) → expand_A A ≠ [] →
      ((expand_A A).getLastD ⟨"", 0, 0⟩).gold_cost =
        ((A.filter (fun r => r.purchase_price != -1)).map
          (fun r => (r.quantity - ((round_quantity r.quantity : ℤ) : ℚ)) *
            r.purchase_price)).sum) ∧
    (∀ B : List MatRow, (∀ r ∈ B, 0 ≤ r.quantity) → expand_B B ≠ [] →
      ((expand_B B).getLastD ⟨"", 0, 0, 0⟩).gold_cost =
        ((B.filter (fun r => r.purchase_price != -1)).map
          (fun r => (r.quantity - ((round_quantity r.quantity : ℤ) : ℚ)) *
            r.purchase_price)).sum) ∧
    (∀ A : List MatRow, (∀ r ∈ A, 0 ≤ r.quantity) → expand_A A ≠ [] →
      (∀ r ∈ A, r.purchase_price ≠ -1 →
        r.quantity ≤ ((round_quantity r.quantity : ℤ) : ℚ) ∧ 0 ≤ r.purchase_price) →
      (∃ r ∈ A, r.purchase_price ≠ -1 ∧
        r.quantity < ((round_quantity r.quantity : ℤ) : ℚ) ∧ 0 < r.purchase_price) →
      ((expand_A A).getLastD ⟨"", 0, 0⟩).gold_cost < 0) ∧
    (∀ B : List MatRow, (∀ r ∈ B, 0 ≤ r.quantity) → expand_B B ≠ [] →
      (∀ r ∈ B, r.purchase_price ≠ -1 →
        r.quantity ≤ ((round_quantity r.quantity : ℤ) : ℚ) ∧ 0 ≤ r.purchase_price) →
      (∃ r ∈ B, r.purchase_price ≠ -1 ∧
        r.quantity < ((round_quantity r.quantity : ℤ) : ℚ) ∧ 0 < r.purchase_price) →
      ((expand_B B).getLastD ⟨"", 0, 0, 0⟩).gold_cost < 0) := by
  refine ⟨fun A hq hne => expand_A_last_gold A hq hne,
    fun B hq hne => expand_B_last_gold B hq hne, ?_, ?_⟩
  · intro A hq hne hup hex
    rw [expand_A_last_gold A hq hne]
    apply sum_neg_list
    · intro x hx
      rcases List.mem_map.mp hx with ⟨r, hrf, rfl⟩
      obtain ⟨hrA, hgold⟩ := List.mem_filter.mp hrf
      have hgold' : r.purchase_price ≠ -1 := by simpa using hgold
      obtain ⟨hle, hnn⟩ := hup r hrA hgold'
      exact mul_nonpos_iff.mpr (Or.inr ⟨by linarith, hnn⟩)
    · rcases hex with ⟨r, hrA, hgold, hlt, hpos⟩
      refine ⟨(r.quantity - ((round_quantity r.quantity : ℤ) : ℚ)) * r.purchase_price,
        List.mem_map_of_mem _ (List.mem_filter.mpr ⟨hrA, by simpa using hgold⟩), ?_⟩
      exact mul_neg_of_neg_of_pos (by linarith) hpos
  · intro B hq hne hup hex
    rw [expand_B_last_gold B hq hne]
    apply sum_neg_list
    · intro x hx
      rcases List.mem_map.mp hx with ⟨r, hrf, rfl⟩
      obtain ⟨hrB, hgold⟩ := List.mem_filter.mp hrf
      have hgold' : r.purchase_price ≠ -1 := by simpa using hgold
      obtain ⟨hle, hnn⟩ := hup r hrB hgold'
      exact mul_nonpos_iff.mpr (Or.inr ⟨by linarith, hnn⟩)
    · rcases hex with ⟨r, hrB, hgold, hlt, hpos⟩
      refine ⟨(r.quantity - ((round_quantity r.quantity : ℤ) : ℚ)) * r.purchase_price,
        List.mem_map_of_mem _ (List.mem_filter.mpr ⟨hrB, by simpa using hgold⟩), ?_⟩
      exact mul_neg_of_neg_of_pos (by linarith) hpos

/-- C10 counterexample: quantities 1/2 (rounded up to 1, gold price 1) and
5 + 1/20000 (snapped down to 5, gold price 100000) leave the last curve
entry's remaining gold at (1/2 - 1) * 1 + (1/20000) * 100000 = 9/2 > 0, even
though a gold-priced material's fractional quantity was rounded up. -/
theorem expand_A_last_gold_positive_counterexample :
    rowC10a ∈ exC10 ∧ rowC10a.purchase_price ≠ -1 ∧
    rowC10a.quantity < ((round_quantity rowC10a.quantity : ℤ) : ℚ) ∧
    0 < rowC10a.purchase_price ∧
    ((expand_A exC10).getLastD ⟨"", 0, 0⟩).gold_cost = 9 / 2 ∧
    ¬ ((expand_A exC10).getLastD ⟨"", 0, 0⟩).gold_cost < 0 := by
  have hrq1 : round_quantity ((1 : ℚ) / 2) = 1 := by
    rw [round_quantity_eq_ceil_right (1 / 2) 0 (by norm_num [pyRound]) (by norm_num)]
    rw [Int.ceil_eq_iff]
    constructor <;> norm_num
  have hpr2 : pyRound ((100001 : ℚ) / 20000) = 5 := by
    have hf : (⌊(100001 : ℚ) / 20000⌋ : ℤ) = 5 := by
      rw [Int.floor_eq_iff]
      constructor <;> norm_num
    simp only [pyRound, hf]
    rw [if_pos (by norm_num)]
  have hrq2 : round_quantity ((100001 : ℚ) / 20000) = 5 :=
    round_quantity_eq_of_near (100001 / 20000) 5 hpr2 (by norm_num) (by norm_num)
  have hq : ∀ r ∈ exC10, 0 ≤ r.quantity := by
    intro r hr
    rcases List.mem_cons.mp hr with rfl | hr'
    · norm_num [rowC10a]
    · rcases List.mem_cons.mp hr' with rfl | h
      · norm_num [rowC10b]
      · simp at h
  have hcount : (expand_A exC10).countP (fun e => e.material == "M1") = 1 := by
    show (expandAAux exC10 0 _).countP (fun e => e.material == "M1") = 1
    rw [expandAAux_count]
    rw [show exC10.filter (fun r => r.material == "M1") = [rowC10a] from by
      simp [exC10, rowC10a, rowC10b, List.filter_cons]]
    simp only [List.map_cons, List.map_nil, List.sum_cons, List.sum_nil, Nat.add_zero]
    rw [show rowC10a.quantity = (1 : ℚ) / 2 from rfl, hrq1]
    rfl
  have hne : expand_A exC10 ≠ [] := by
    intro h
    rw [h] at hcount
    simp at hcount
  have hval : ((expand_A exC10).getLastD ⟨"", 0, 0⟩).gold_cost = 9 / 2 := by
    rw [expand_A_last_gold exC10 hq hne]
    rw [show exC10.filter (fun r => r.purchase_price != -1) = [rowC10a, rowC10b] from by
      norm_num [exC10, rowC10a, rowC10b, List.filter_cons]]
    simp only [List.map_cons, List.map_nil, List.sum_cons, List.sum_nil, add_zero]
    rw [show rowC10a.quantity = (1 : ℚ) / 2 from rfl,
      show rowC10b.quantity = (100001 : ℚ) / 20000 from rfl, hrq1, hrq2,
      show rowC10a.purchase_price = (1 : ℚ) from rfl,
      show rowC10b.purchase_price = (100000 : ℚ) from rfl]
    norm_num
  refine ⟨by simp [exC10], by norm_num [rowC10a], ?_, by norm_num [rowC10a], hval, ?_⟩
  · rw [show rowC10a.quantity = (1 : ℚ) / 2 from rfl, hrq1]
    norm_num
  · rw [hval]
    norm_num

/-- `round_quantity (1/2) = 1`: the half unit is rounded up. -/
theorem round_quantity_half : round_quantity ((1 : ℚ) / 2) = 1 := by
  rw [round_quantity_eq_ceil_right (1 / 2) 0 (by norm_num [pyRound]) (by norm_num)]
  rw [Int.ceil_eq_iff]
  constructor <;> norm_num

/-- Witness for C10: all four clauses applied to one-material ticket and
camp channels whose quantity 1/2 is rounded up at gold price 1; each curve
ends at remaining gold (1/2 - 1) * 1 = -1/2 < 0. -/
theorem expand_curves_final_remaining_gold_witness :
    (∀ r ∈ exC10w, 0 ≤ r.quantity) ∧ expand_A exC10w ≠ [] ∧
    (∀ r ∈ exC10w, r.purchase_price ≠ -1 →
      r.quantity ≤ ((round_quantity r.quantity : ℤ) : ℚ) ∧ 0 ≤ r.purchase_price) ∧
    (∃ r ∈ exC10w, r.purchase_price ≠ -1 ∧
      r.quantity < ((round_quantity r.quantity : ℤ) : ℚ) ∧ 0 < r.purchase_price) ∧
    (∀ r ∈ exC10B, 0 ≤ r.quantity) ∧ expand_B exC10B ≠ [] ∧
    (∀ r ∈ exC10B, r.purchase_price ≠ -1 →
      r.quantity ≤ ((round_quantity r.quantity : ℤ) : ℚ) ∧ 0 ≤ r.purchase_price) ∧
    (∃ r ∈ exC10B, r.purchase_price ≠ -1 ∧
      r.quantity < ((round_quantity r.quantity : ℤ) : ℚ) ∧ 0 < r.purchase_price) ∧
    ((expand_A exC10w).getLastD ⟨"", 0, 0⟩).gold_cost =
      ((exC10w.filter (fun r => r.purchase_price != -1)).map
        (fun r => (r.quantity - ((round_quantity r.quantity : ℤ) : ℚ)) *
          r.purchase_price)).sum ∧
    ((expand_B exC10B).getLastD ⟨"", 0, 0, 0⟩).gold_cost =
      ((exC10B.filter (fun r => r.purchase_price != -1)).map
        (fun r => (r.quantity - ((round_quantity r.quantity : ℤ) : ℚ)) *
          r.purchase_price)).sum ∧
    ((expand_A exC10w).getLastD ⟨"", 0, 0⟩).gold_cost < 0 ∧
    ((expand_B exC10B).getLastD ⟨"", 0, 0, 0⟩).gold_cost < 0 := by
  have hqA : ∀ r ∈ exC10w, 0 ≤ r.quantity := by
    intro r hr
    rcases List.mem_singleton.mp hr with rfl
    norm_num [rowC10a]
  have hcount : (expand_A exC10w).countP (fun e => e.material == "M1") = 1 := by
    show (expandAAux exC10w 0 _).countP (fun e => e.material == "M1") = 1
    rw [expandAAux_count]
    rw [show exC10w.filter (fun r => r.material == "M1") = [rowC10a] from by
      simp [exC10w, rowC10a, List.filter_cons]]
    simp only [List.map_cons, List.map_nil, List.sum_cons, List.sum_nil, Nat.add_zero]
    rw [show rowC10a.quantity = (1 : ℚ) / 2 from rfl, round_quantity_half]
    rfl
  have hneA : expand_A exC10w ≠ [] := by
    intro h
    rw [h] at hcount
    simp at hcount
  have hupA : ∀ r ∈ exC10w, r.purchase_price ≠ -1 →
      r.quantity ≤ ((round_quantity r.quantity : ℤ) : ℚ) ∧ 0 ≤ r.purchase_price := by
    intro r hr _
    rcases List.mem_singleton.mp hr with rfl
    constructor
    · rw [show rowC10a.quantity = (1 : ℚ) / 2 from rfl, round_quantity_half]
      norm_num
    · norm_num [rowC10a]
  have hexA : ∃ r ∈ exC10w, r.purchase_price ≠ -1 ∧
      r.quantity < ((round_quantity r.quantity : ℤ) : ℚ) ∧ 0 < r.purchase_price := by
    refine ⟨rowC10a, by simp [exC10w], by norm_num [rowC10a], ?_, by norm_num [rowC10a]⟩
    rw [show rowC10a.quantity = (1 : ℚ) / 2 from rfl, round_quantity_half]
    norm_num
  have hqB : ∀ r ∈ exC10B, 0 ≤ r.quantity := by
    intro r hr
    rcases List.mem_singleton.mp hr with rfl
    norm_num [rowC10c]
  have hlen : (expand_B exC10B).length = 1 := by
    show (expandBAux exC10B 0 0 _).length = 1
    rw [expandBAux_length]
    simp only [exC10B, List.map_cons, List.map_nil, List.sum_cons, List.sum_nil,
      Nat.add_zero]
    rw [show rowC10c.quantity = (1 : ℚ) / 2 from rfl, round_quantity_half]
    rfl
  have hneB : expand_B exC10B ≠ [] := by
    intro h
    rw [h] at hlen
    simp at hlen
  have hupB : ∀ r ∈ exC10B, r.purchase_price ≠ -1 →
      r.quantity ≤ ((round_quantity r.quantity : ℤ) : ℚ) ∧ 0 ≤ r.purchase_price := by
    intro r hr _
    rcases List.mem_singleton.mp hr with rfl
    constructor
    · rw [show rowC10c.quantity = (1 : ℚ) / 2 from rfl, round_quantity_half]
      norm_num
    · norm_num [rowC10c]
  have hexB : ∃ r ∈ exC10B, r.purchase_price ≠ -1 ∧
      r.quantity < ((round_quantity r.quantity : ℤ) : ℚ) ∧ 0 < r.purchase_price := by
    refine ⟨rowC10c, by simp [exC10B], by norm_num [rowC10c], ?_, by norm_num [rowC10c]⟩
    rw [show rowC10c.quantity = (1 : ℚ) / 2 from rfl, round_quantity_half]
    norm_num
  exact ⟨hqA, hneA, hupA, hexA, hqB, hneB, hupB, hexB,
    expand_curves_final_remaining_gold.1 exC10w hqA hneA,
    expand_curves_final_remaining_gold.2.1 exC10B hqB hneB,
    expand_curves_final_remaining_gold.2.2.1 exC10w hqA hneA hupA hexA,
    expand_curves_final_remaining_gold.2.2.2 exC10B hqB hneB hupB hexB⟩
